import Mathlib

/-!
Verification of the SoftPool CUDA kernels (`softpool_cuda_kernel.cu`).

The six device kernels (forward and backward for 1, 2 and 3 spatial
dimensions) are shallowly embedded over exact rationals.  The element type
`scalar_t` becomes `ℚ`; the device exponential primitive `exp` (an external
collaborator, declared outside this translation unit) becomes an explicit
function parameter `fexp : ℚ → ℚ`; the numeric-limit constants
`n_limits<scalar_t>::min()/::max()` (from the external header `limits.cuh`)
become explicit parameters `lower upper : ℚ`.  Flat device buffers become
total functions `ℕ → ℚ`; the atomic adds of the backward kernels become a
sequential left fold over the output-index space, which computes the same
per-cell sums because rational addition is associative and commutative.
C `int` arithmetic on coordinates is modelled by `ℤ`/`ℕ` (the claims under
study do not concern 32-bit wraparound of the geometry arguments).
-/

namespace SoftPool

/-- Type-safe sign from the source: `(scalar_t(0) < val) - (val < scalar_t(0))`. -/
def sgn (x : ℚ) : ℚ :=
  (if 0 < x then 1 else 0) - (if x < 0 then 1 else 0)

/-- Overflow and underflow clamp from the source: clamp the absolute value of
`n` into `[lower, upper]`, then restore the sign of `n`. -/
def clamp (n lower upper : ℚ) : ℚ :=
  max lower (min |n| upper) * sgn n

/-- Candidate window coordinate for one axis: `pd*stride + id - kernel/2`
(`kernel/2` is C integer division of the nonnegative kernel extent). -/
def dOffset (kernel stride pd id : ℕ) : ℤ :=
  ((pd * stride + id : ℕ) : ℤ) - ((kernel / 2 : ℕ) : ℤ)

/-- The list of in-bounds window coordinates for one axis, in loop order:
candidates with a negative coordinate or one at least the axis extent are
dropped (the kernels' `continue`), the others are kept. -/
def validOffsets1d (dim kernel stride pd : ℕ) : List ℕ :=
  (List.range kernel).filterMap (fun id =>
    let off := dOffset kernel stride pd id
    if 0 ≤ off ∧ off < (dim : ℤ) then some off.toNat else none)

/-- Base offset of the `(n, c)` slice of a 1-D tensor: `(n*channels + c)*dim`. -/
def sliceBase1d (channels dim n c : ℕ) : ℕ :=
  (n * channels + c) * dim

/-- Flat in-slice offset used by the 2-D kernels: `y_offset*width + x_offset`. -/
def flatOffset2d (width y x : ℕ) : ℕ :=
  y * width + x

/-- Flat in-slice offset as computed by the 3-D kernels in the source:
`d_offset*height + y_offset*width + x_offset`. -/
def flatOffset3d (height width d y x : ℕ) : ℕ :=
  d * height + y * width + x

/-- Modelled from the spec: the row-major flat offset of coordinate
`(d, y, x)` in a depth x height x width slice, `((d*height) + y)*width + x`,
per the data-model layout `[batch, channel, depth, height, width]`. -/
def rowMajorOffset3d (height width d y x : ℕ) : ℕ :=
  (d * height + y) * width + x

/-- First pass of the 1-D forward kernel: accumulate `clamp(exp(v), 0, upper)`
over the valid window cells, skipping out-of-bounds candidates. -/
def maskSum1d (fexp : ℚ → ℚ) (upper : ℚ) (inp : ℕ → ℚ)
    (dim kernel_d stride_d pd : ℕ) : ℚ :=
  (List.range kernel_d).foldl (fun mask_sum id =>
    let d_offset := dOffset kernel_d stride_d pd id
    if d_offset ≥ (dim : ℤ) ∨ d_offset < 0 then mask_sum
    else
      let mask := clamp (fexp (inp d_offset.toNat)) 0 upper
      mask_sum + mask) 0

/-- The window sum after the overflow check (B.): `clamp(mask_sum, lower, upper)`. -/
def maskSumClamped1d (fexp : ℚ → ℚ) (lower upper : ℚ) (inp : ℕ → ℚ)
    (dim kernel_d stride_d pd : ℕ) : ℚ :=
  clamp (maskSum1d fexp upper inp dim kernel_d stride_d pd) lower upper

/-- The normalized, clamped weight the kernels compute for the input cell at
in-slice offset `j` of the window of output cell `pd` (source steps C. and D.:
`mask = clamp(exp(inp[j]), 0, upper); mask = clamp(mask / mask_sum, 0, upper)`). -/
def weight1d (fexp : ℚ → ℚ) (lower upper : ℚ) (inp : ℕ → ℚ)
    (dim kernel_d stride_d pd j : ℕ) : ℚ :=
  let mask_sum := maskSumClamped1d fexp lower upper inp dim kernel_d stride_d pd
  clamp (clamp (fexp (inp j)) 0 upper / mask_sum) 0 upper

/-- Second pass of the 1-D forward kernel for one output cell: starting from
the zeroed output slot, for each valid window cell recompute the clamped
exponential, normalize by `mask_sum`, clamp, multiply by the raw input value,
clamp, and accumulate with a clamp after each addition (source steps C.–F.). -/
def softPool1dForwardCell (fexp : ℚ → ℚ) (lower upper : ℚ) (inp : ℕ → ℚ)
    (dim kernel_d stride_d pd : ℕ) : ℚ :=
  let mask_sum := maskSumClamped1d fexp lower upper inp dim kernel_d stride_d pd
  (List.range kernel_d).foldl (fun out id =>
    let d_offset := dOffset kernel_d stride_d pd id
    if d_offset ≥ (dim : ℤ) ∨ d_offset < 0 then out
    else
      let mask := clamp (fexp (inp d_offset.toNat)) 0 upper
      let mask := clamp (mask / mask_sum) 0 upper
      let weighted_inp := clamp (inp d_offset.toNat * mask) 0 upper
      clamp (out + weighted_inp) 0 upper) 0

/-- The value the 1-D forward kernel stores at flat output index `index`:
decode `(n, c, pd)` from the flat index as the source does, then run the
two-pass window reduction on the `(n, c)` input slice. -/
def forwardCellAt1d (fexp : ℚ → ℚ) (lower upper : ℚ) (bottom_input : ℕ → ℚ)
    (channels dim kernel_d stride_d index : ℕ) : ℚ :=
  let pooled_dim := dim / stride_d
  let pd := index % pooled_dim
  let c := index / pooled_dim % channels
  let n := index / pooled_dim / channels
  softPool1dForwardCell fexp lower upper
    (fun j => bottom_input (sliceBase1d channels dim n c + j))
    dim kernel_d stride_d pd

/-- The whole 1-D forward kernel: every flat output index below `nthreads`
zeroes its output slot and accumulates its window reduction into it; the net
effect on the output buffer is to store `forwardCellAt1d` at each index. -/
def softPool1dForwardRun (fexp : ℚ → ℚ) (lower upper : ℚ) (nthreads : ℕ)
    (bottom_input : ℕ → ℚ) (channels dim kernel_d stride_d : ℕ)
    (output0 : ℕ → ℚ) : ℕ → ℚ :=
  (List.range nthreads).foldl (fun output index =>
    Function.update output index
      (forwardCellAt1d fexp lower upper bottom_input channels dim kernel_d stride_d index))
    output0

/-- First pass of the 2-D forward kernel: two nested loops over the kernel
extents, skipping any out-of-bounds axis candidate, reading the slice at
`y_offset*width + x_offset`. -/
def maskSum2d (fexp : ℚ → ℚ) (upper : ℚ) (inp : ℕ → ℚ)
    (height width kernel_h kernel_w stride_h stride_w ph pw : ℕ) : ℚ :=
  (List.range kernel_h).foldl (fun mask_sum iy =>
    let y_offset := dOffset kernel_h stride_h ph iy
    if y_offset ≥ (height : ℤ) ∨ y_offset < 0 then mask_sum
    else
      (List.range kernel_w).foldl (fun mask_sum ix =>
        let x_offset := dOffset kernel_w stride_w pw ix
        if x_offset ≥ (width : ℤ) ∨ x_offset < 0 then mask_sum
        else
          let mask := clamp (fexp (inp (flatOffset2d width y_offset.toNat x_offset.toNat))) 0 upper
          mask_sum + mask) mask_sum) 0

/-- The 2-D window sum after the overflow check (B.). -/
def maskSumClamped2d (fexp : ℚ → ℚ) (lower upper : ℚ) (inp : ℕ → ℚ)
    (height width kernel_h kernel_w stride_h stride_w ph pw : ℕ) : ℚ :=
  clamp (maskSum2d fexp upper inp height width kernel_h kernel_w stride_h stride_w ph pw)
    lower upper

/-- Second pass of the 2-D forward kernel for one output cell. -/
def softPool2dForwardCell (fexp : ℚ → ℚ) (lower upper : ℚ) (inp : ℕ → ℚ)
    (height width kernel_h kernel_w stride_h stride_w ph pw : ℕ) : ℚ :=
  let mask_sum :=
    maskSumClamped2d fexp lower upper inp height width kernel_h kernel_w stride_h stride_w ph pw
  (List.range kernel_h).foldl (fun out iy =>
    let y_offset := dOffset kernel_h stride_h ph iy
    if y_offset ≥ (height : ℤ) ∨ y_offset < 0 then out
    else
      (List.range kernel_w).foldl (fun out ix =>
        let x_offset := dOffset kernel_w stride_w pw ix
        if x_offset ≥ (width : ℤ) ∨ x_offset < 0 then out
        else
          let v := inp (flatOffset2d width y_offset.toNat x_offset.toNat)
          let mask := clamp (fexp v) 0 upper
          let mask := clamp (mask / mask_sum) 0 upper
          let weighted_inp := clamp (v * mask) 0 upper
          clamp (out + weighted_inp) 0 upper) out) 0

/-- Base offset of the `(n, c)` slice of a 2-D tensor. -/
def sliceBase2d (channels height width n c : ℕ) : ℕ :=
  (n * channels + c) * (height * width)

/-- The value the 2-D forward kernel stores at flat output index `index`,
decoding `(n, c, ph, pw)` from the flat index as the source does. -/
def forwardCellAt2d (fexp : ℚ → ℚ) (lower upper : ℚ) (bottom_input : ℕ → ℚ)
    (channels height width kernel_h kernel_w stride_h stride_w index : ℕ) : ℚ :=
  let pooled_height := height / stride_h
  let pooled_width := width / stride_w
  let pw := index % pooled_width
  let ph := index / pooled_width % pooled_height
  let c := index / pooled_width / pooled_height % channels
  let n := index / pooled_width / pooled_height / channels
  softPool2dForwardCell fexp lower upper
    (fun j => bottom_input (sliceBase2d channels height width n c + j))
    height width kernel_h kernel_w stride_h stride_w ph pw

/-- The whole 2-D forward kernel over the flat output index space. -/
def softPool2dForwardRun (fexp : ℚ → ℚ) (lower upper : ℚ) (nthreads : ℕ)
    (bottom_input : ℕ → ℚ)
    (channels height width kernel_h kernel_w stride_h stride_w : ℕ)
    (output0 : ℕ → ℚ) : ℕ → ℚ :=
  (List.range nthreads).foldl (fun output index =>
    Function.update output index
      (forwardCellAt2d fexp lower upper bottom_input
        channels height width kernel_h kernel_w stride_h stride_w index))
    output0

/-- Base offset of the `(n, c)` slice of a 3-D tensor. -/
def sliceBase3d (channels depth height width n c : ℕ) : ℕ :=
  (n * channels + c) * (depth * height * width)

/-- First pass of the 3-D forward kernel; note that the slice is read at
`flatOffset3d`, i.e. at `d_offset*height + y_offset*width + x_offset`,
exactly as in the source. -/
def maskSum3d (fexp : ℚ → ℚ) (upper : ℚ) (inp : ℕ → ℚ)
    (depth height width kernel_d kernel_h kernel_w stride_d stride_h stride_w
      pd ph pw : ℕ) : ℚ :=
  (List.range kernel_d).foldl (fun mask_sum id =>
    let d_offset := dOffset kernel_d stride_d pd id
    if d_offset ≥ (depth : ℤ) ∨ d_offset < 0 then mask_sum
    else
      (List.range kernel_h).foldl (fun mask_sum iy =>
        let y_offset := dOffset kernel_h stride_h ph iy
        if y_offset ≥ (height : ℤ) ∨ y_offset < 0 then mask_sum
        else
          (List.range kernel_w).foldl (fun mask_sum ix =>
            let x_offset := dOffset kernel_w stride_w pw ix
            if x_offset ≥ (width : ℤ) ∨ x_offset < 0 then mask_sum
            else
              let mask := clamp
                (fexp (inp (flatOffset3d height width d_offset.toNat y_offset.toNat x_offset.toNat)))
                0 upper
              mask_sum + mask) mask_sum) mask_sum) 0

/-- Second pass of the 3-D forward kernel for one output cell, reading the
slice at `flatOffset3d` as in the source. -/
def softPool3dForwardCell (fexp : ℚ → ℚ) (lower upper : ℚ) (inp : ℕ → ℚ)
    (depth height width kernel_d kernel_h kernel_w stride_d stride_h stride_w
      pd ph pw : ℕ) : ℚ :=
  let mask_sum := clamp
    (maskSum3d fexp upper inp depth height width kernel_d kernel_h kernel_w
      stride_d stride_h stride_w pd ph pw) lower upper
  (List.range kernel_d).foldl (fun out id =>
    let d_offset := dOffset kernel_d stride_d pd id
    if d_offset ≥ (depth : ℤ) ∨ d_offset < 0 then out
    else
      (List.range kernel_h).foldl (fun out iy =>
        let y_offset := dOffset kernel_h stride_h ph iy
        if y_offset ≥ (height : ℤ) ∨ y_offset < 0 then out
        else
          (List.range kernel_w).foldl (fun out ix =>
            let x_offset := dOffset kernel_w stride_w pw ix
            if x_offset ≥ (width : ℤ) ∨ x_offset < 0 then out
            else
              let v := inp (flatOffset3d height width d_offset.toNat y_offset.toNat x_offset.toNat)
              let mask := clamp (fexp v) 0 upper
              let mask := clamp (mask / mask_sum) 0 upper
              let weighted_inp := clamp (v * mask) 0 upper
              clamp (out + weighted_inp) 0 upper) out) out) 0

/-- The value the 3-D forward kernel stores at flat output index `index`.
The forward kernel decodes the index with `pooled_height = height/stride_h`. -/
def forwardCellAt3d (fexp : ℚ → ℚ) (lower upper : ℚ) (bottom_input : ℕ → ℚ)
    (channels depth height width kernel_d kernel_h kernel_w
      stride_d stride_h stride_w index : ℕ) : ℚ :=
  let pooled_depth := depth / stride_d
  let pooled_height := height / stride_h
  let pooled_width := width / stride_w
  let pw := index % pooled_width
  let ph := index / pooled_width % pooled_height
  let pd := index / pooled_width / pooled_height % pooled_depth
  let c := index / pooled_width / pooled_height / pooled_depth % channels
  let n := index / pooled_width / pooled_height / pooled_depth / channels
  softPool3dForwardCell fexp lower upper
    (fun j => bottom_input (sliceBase3d channels depth height width n c + j))
    depth height width kernel_d kernel_h kernel_w stride_d stride_h stride_w pd ph pw

/-- The whole 3-D forward kernel over the flat output index space. -/
def softPool3dForwardRun (fexp : ℚ → ℚ) (lower upper : ℚ) (nthreads : ℕ)
    (bottom_input : ℕ → ℚ)
    (channels depth height width kernel_d kernel_h kernel_w
      stride_d stride_h stride_w : ℕ)
    (output0 : ℕ → ℚ) : ℕ → ℚ :=
  (List.range nthreads).foldl (fun output index =>
    Function.update output index
      (forwardCellAt3d fexp lower upper bottom_input
        channels depth height width kernel_d kernel_h kernel_w
        stride_d stride_h stride_w index))
    output0

/-- Pooled extent used by every kernel and launcher for one axis:
`input_extent / stride` in C integer division. -/
def pooledExtent (extent stride : ℕ) : ℕ :=
  extent / stride

/-- The three pooled extents the 3-D backward kernel computes at its top
(source lines 482–484): `depth/stride_d`, `width/stride_h`, `width/stride_w` —
the middle one reads `width`, not `height`. -/
def softPool3dBackwardPooled (depth height width stride_d stride_h stride_w : ℕ) :
    ℕ × ℕ × ℕ :=
  (depth / stride_d, width / stride_h, width / stride_w)

/-- The three pooled extents the 3-D forward kernel computes at its top
(source lines 174–176). -/
def softPool3dForwardPooled (depth height width stride_d stride_h stride_w : ℕ) :
    ℕ × ℕ × ℕ :=
  (depth / stride_d, height / stride_h, width / stride_w)

/-- One output cell of the 1-D backward kernel, as a transformation of the
gradient buffer: recompute the window's clamped weights from the saved input
and add `clamp(diff_output[index] * weight, 0, upper)` into the input-gradient
buffer at each valid window cell. -/
def backwardStep1d (fexp : ℚ → ℚ) (lower upper : ℚ)
    (diff_output data_input : ℕ → ℚ) (channels dim kernel_d stride_d index : ℕ)
    (diff_input : ℕ → ℚ) : ℕ → ℚ :=
  let pooled_dim := dim / stride_d
  let pd := index % pooled_dim
  let c := index / pooled_dim % channels
  let n := index / pooled_dim / channels
  let offset0 := sliceBase1d channels dim n c
  let diff_output_index := diff_output index
  let mask_sum := maskSumClamped1d fexp lower upper
    (fun j => data_input (offset0 + j)) dim kernel_d stride_d pd
  (List.range kernel_d).foldl (fun diff_input id =>
    let d_offset := dOffset kernel_d stride_d pd id
    if d_offset ≥ (dim : ℤ) ∨ d_offset < 0 then diff_input
    else
      let mask := clamp (fexp (data_input (offset0 + d_offset.toNat))) 0 upper
      let mask := clamp (mask / mask_sum) 0 upper
      let weighted_grad := clamp (diff_output_index * mask) 0 upper
      Function.update diff_input (offset0 + d_offset.toNat)
        (diff_input (offset0 + d_offset.toNat) + weighted_grad)) diff_input

/-- The whole 1-D backward kernel: fold the per-output-cell scatter over the
flat output index space.  The source performs the adds with `atomicAdd`; the
final buffer contents equal this sequential fold because each cell's final
value is the sum of its initial value and all contributions added to it. -/
def softPool1dBackwardRun (fexp : ℚ → ℚ) (lower upper : ℚ) (nthreads : ℕ)
    (diff_output data_input : ℕ → ℚ) (channels dim kernel_d stride_d : ℕ)
    (diff_input0 : ℕ → ℚ) : ℕ → ℚ :=
  (List.range nthreads).foldl (fun diff_input index =>
    backwardStep1d fexp lower upper diff_output data_input
      channels dim kernel_d stride_d index diff_input) diff_input0

/-- Pooled-axis coordinate decoded from a flat 1-D output index. -/
def pd1d (dim stride_d index : ℕ) : ℕ := index % (dim / stride_d)

/-- Channel decoded from a flat 1-D output index. -/
def c1d (channels dim stride_d index : ℕ) : ℕ := index / (dim / stride_d) % channels

/-- Batch decoded from a flat 1-D output index. -/
def n1d (channels dim stride_d index : ℕ) : ℕ := index / (dim / stride_d) / channels

/-- Base address of the input slice that the 1-D output cell at flat index
`index` reads. -/
def base1d (channels dim stride_d index : ℕ) : ℕ :=
  sliceBase1d channels dim (n1d channels dim stride_d index) (c1d channels dim stride_d index)

/-- Pooled-width coordinate decoded from a flat 2-D output index. -/
def pw2d (width stride_w index : ℕ) : ℕ := index % (width / stride_w)

/-- Pooled-height coordinate decoded from a flat 2-D output index. -/
def ph2d (height width stride_h stride_w index : ℕ) : ℕ :=
  index / (width / stride_w) % (height / stride_h)

/-- Channel decoded from a flat 2-D output index. -/
def c2d (channels height width stride_h stride_w index : ℕ) : ℕ :=
  index / (width / stride_w) / (height / stride_h) % channels

/-- Batch decoded from a flat 2-D output index. -/
def n2d (channels height width stride_h stride_w index : ℕ) : ℕ :=
  index / (width / stride_w) / (height / stride_h) / channels

/-- Base address of the input slice that the 2-D output cell at flat index
`index` reads. -/
def base2d (channels height width stride_h stride_w index : ℕ) : ℕ :=
  sliceBase2d channels height width (n2d channels height width stride_h stride_w index)
    (c2d channels height width stride_h stride_w index)

/-- Does the window of the output cell with flat index `index` cover the
input cell at flat (whole-tensor) address `a`?  True when some in-bounds
window candidate of `index`'s window lands on `a`. -/
def covers1d (channels dim kernel_d stride_d index a : ℕ) : Bool :=
  (validOffsets1d dim kernel_d stride_d (pd1d dim stride_d index)).any
    (fun j => base1d channels dim stride_d index + j == a)

/-- The normalized, clamped weight the 2-D kernels compute for the input cell
at in-slice offset `j` of the window of output cell `(ph, pw)`. -/
def weight2d (fexp : ℚ → ℚ) (lower upper : ℚ) (inp : ℕ → ℚ)
    (height width kernel_h kernel_w stride_h stride_w ph pw j : ℕ) : ℚ :=
  let mask_sum := maskSumClamped2d fexp lower upper inp height width kernel_h kernel_w
    stride_h stride_w ph pw
  clamp (clamp (fexp (inp j)) 0 upper / mask_sum) 0 upper

/-- One output cell of the 2-D backward kernel, as a transformation of the
gradient buffer: recompute the window's clamped weights from the saved input
and add `clamp(diff_output[index] * weight, 0, upper)` into the input-gradient
buffer at each valid window cell (address `y_offset*width + x_offset` within
the slice). -/
def backwardStep2d (fexp : ℚ → ℚ) (lower upper : ℚ)
    (diff_output data_input : ℕ → ℚ)
    (channels height width kernel_h kernel_w stride_h stride_w index : ℕ)
    (diff_input : ℕ → ℚ) : ℕ → ℚ :=
  let pooled_height := height / stride_h
  let pooled_width := width / stride_w
  let pw := index % pooled_width
  let ph := index / pooled_width % pooled_height
  let c := index / pooled_width / pooled_height % channels
  let n := index / pooled_width / pooled_height / channels
  let offset0 := sliceBase2d channels height width n c
  let diff_output_index := diff_output index
  let mask_sum := maskSumClamped2d fexp lower upper (fun j => data_input (offset0 + j))
    height width kernel_h kernel_w stride_h stride_w ph pw
  (List.range kernel_h).foldl (fun diff_input iy =>
    let y_offset := dOffset kernel_h stride_h ph iy
    if y_offset ≥ (height : ℤ) ∨ y_offset < 0 then diff_input
    else
      (List.range kernel_w).foldl (fun diff_input ix =>
        let x_offset := dOffset kernel_w stride_w pw ix
        if x_offset ≥ (width : ℤ) ∨ x_offset < 0 then diff_input
        else
          let a := offset0 + flatOffset2d width y_offset.toNat x_offset.toNat
          let mask := clamp (fexp (data_input a)) 0 upper
          let mask := clamp (mask / mask_sum) 0 upper
          let weighted_grad := clamp (diff_output_index * mask) 0 upper
          Function.update diff_input a (diff_input a + weighted_grad)) diff_input)
    diff_input

/-- The whole 2-D backward kernel over the flat output index space. -/
def softPool2dBackwardRun (fexp : ℚ → ℚ) (lower upper : ℚ) (nthreads : ℕ)
    (diff_output data_input : ℕ → ℚ)
    (channels height width kernel_h kernel_w stride_h stride_w : ℕ)
    (diff_input0 : ℕ → ℚ) : ℕ → ℚ :=
  (List.range nthreads).foldl (fun diff_input index =>
    backwardStep2d fexp lower upper diff_output data_input
      channels height width kernel_h kernel_w stride_h stride_w index diff_input)
    diff_input0

/-- One output cell of the 3-D backward kernel as a buffer transformation.
The flat index is decoded with the pooled extents of
`softPool3dBackwardPooled`, and the slice is addressed with `flatOffset3d`,
both exactly as in the source. -/
def backwardStep3d (fexp : ℚ → ℚ) (lower upper : ℚ)
    (diff_output data_input : ℕ → ℚ)
    (channels depth height width kernel_d kernel_h kernel_w
      stride_d stride_h stride_w index : ℕ)
    (diff_input : ℕ → ℚ) : ℕ → ℚ :=
  let pooled := softPool3dBackwardPooled depth height width stride_d stride_h stride_w
  let pooled_depth := pooled.1
  let pooled_height := pooled.2.1
  let pooled_width := pooled.2.2
  let pw := index % pooled_width
  let ph := index / pooled_width % pooled_height
  let pd := index / pooled_width / pooled_height % pooled_depth
  let c := index / pooled_width / pooled_height / pooled_depth % channels
  let n := index / pooled_width / pooled_height / pooled_depth / channels
  let offset0 := sliceBase3d channels depth height width n c
  let diff_output_index := diff_output index
  let mask_sum := clamp
    (maskSum3d fexp upper (fun j => data_input (offset0 + j))
      depth height width kernel_d kernel_h kernel_w stride_d stride_h stride_w pd ph pw)
    lower upper
  (List.range kernel_d).foldl (fun diff_input id =>
    let d_offset := dOffset kernel_d stride_d pd id
    if d_offset ≥ (depth : ℤ) ∨ d_offset < 0 then diff_input
    else
      (List.range kernel_h).foldl (fun diff_input iy =>
        let y_offset := dOffset kernel_h stride_h ph iy
        if y_offset ≥ (height : ℤ) ∨ y_offset < 0 then diff_input
        else
          (List.range kernel_w).foldl (fun diff_input ix =>
            let x_offset := dOffset kernel_w stride_w pw ix
            if x_offset ≥ (width : ℤ) ∨ x_offset < 0 then diff_input
            else
              let a := offset0 +
                flatOffset3d height width d_offset.toNat y_offset.toNat x_offset.toNat
              let mask := clamp (fexp (data_input a)) 0 upper
              let mask := clamp (mask / mask_sum) 0 upper
              let weighted_grad := clamp (diff_output_index * mask) 0 upper
              Function.update diff_input a (diff_input a + weighted_grad))
            diff_input) diff_input) diff_input

/-- The whole 3-D backward kernel over the flat output index space. -/
def softPool3dBackwardRun (fexp : ℚ → ℚ) (lower upper : ℚ) (nthreads : ℕ)
    (diff_output data_input : ℕ → ℚ)
    (channels depth height width kernel_d kernel_h kernel_w
      stride_d stride_h stride_w : ℕ)
    (diff_input0 : ℕ → ℚ) : ℕ → ℚ :=
  (List.range nthreads).foldl (fun diff_input index =>
    backwardStep3d fexp lower upper diff_output data_input
      channels depth height width kernel_d kernel_h kernel_w
      stride_d stride_h stride_w index diff_input) diff_input0

/-- Modelled from the spec, section 4.3: the window's valid input cells of a
1-D output cell, the softmax weight sum over them, and the clamped weighted
accumulation, written over the explicit valid-cell list (spec step 1
"enumerate the window's valid input cells", step 2 clamp of the sum, step 3
normalize / clamp / weight / clamp / accumulate with clamp). -/
def specForward1dCell (fexp : ℚ → ℚ) (lower upper : ℚ) (inp : ℕ → ℚ)
    (dim kernel_d stride_d pd : ℕ) : ℚ :=
  let cells := validOffsets1d dim kernel_d stride_d pd
  let weight_sum := (cells.map (fun j => clamp (fexp (inp j)) 0 upper)).sum
  let weight_sum := clamp weight_sum lower upper
  cells.foldl (fun acc j =>
    let w := clamp (clamp (fexp (inp j)) 0 upper / weight_sum) 0 upper
    let contribution := clamp (inp j * w) 0 upper
    clamp (acc + contribution) 0 upper) 0

/-- Modelled from the spec, section 4.2: the full Cartesian product of the
per-axis valid window coordinates of a 2-D output cell, as flat row-major
in-slice offsets. -/
def specCells2d (height width kernel_h kernel_w stride_h stride_w ph pw : ℕ) :
    List ℕ :=
  (validOffsets1d height kernel_h stride_h ph).flatMap (fun y =>
    (validOffsets1d width kernel_w stride_w pw).map (fun x => flatOffset2d width y x))

/-- Does the window of the 2-D output cell with flat index `index` cover the
input cell at flat (whole-tensor) address `a`? -/
def covers2d (channels height width kernel_h kernel_w stride_h stride_w index a : ℕ) :
    Bool :=
  (specCells2d height width kernel_h kernel_w stride_h stride_w
      (ph2d height width stride_h stride_w index) (pw2d width stride_w index)).any
    (fun j => base2d channels height width stride_h stride_w index + j == a)

/-- Modelled from the spec, section 4.3, for a 2-D output cell: the two-pass
softmax-weighted reduction over the window's valid cells. -/
def specForward2dCell (fexp : ℚ → ℚ) (lower upper : ℚ) (inp : ℕ → ℚ)
    (height width kernel_h kernel_w stride_h stride_w ph pw : ℕ) : ℚ :=
  let cells := specCells2d height width kernel_h kernel_w stride_h stride_w ph pw
  let weight_sum := (cells.map (fun j => clamp (fexp (inp j)) 0 upper)).sum
  let weight_sum := clamp weight_sum lower upper
  cells.foldl (fun acc j =>
    let w := clamp (clamp (fexp (inp j)) 0 upper / weight_sum) 0 upper
    let contribution := clamp (inp j * w) 0 upper
    clamp (acc + contribution) 0 upper) 0

/-- Rational stand-in for `e = exp(1)`, accurate to nine decimal places,
used to instantiate the exponential parameter on the spec's end-to-end
scenario (whose input values are only `0` and `1`; `exp 0 = 1` exactly). -/
def eApprox : ℚ := 2718281828 / 1000000000

/-- The exponential parameter instantiated on the scenario's two input
values: `exp 0 = 1` and `exp 1 ≈ e`. -/
def expApprox : ℚ → ℚ := fun x => if x = 1 then eApprox else 1

/-- The spec's end-to-end scenario input: the 1-D tensor `[0, 1, 0, 1]`
(one batch, one channel, dim 4). -/
def scenarioInput : ℕ → ℚ := fun j => if j = 1 ∨ j = 3 then 1 else 0

/-! Generic list lemmas used to relate the loop-with-continue shape of the
kernels to folds over the explicit valid-cell lists. -/

theorem foldl_filterMap {α β γ : Type} (g : α → Option β) (f : γ → β → γ) :
    ∀ (l : List α) (init : γ),
      (l.filterMap g).foldl f init =
        l.foldl (fun acc x => match g x with | some y => f acc y | none => acc) init := by
  intro l
  induction l with
  | nil => intro init; rfl
  | cons a l ih =>
    intro init
    cases hg : g a <;> simp [List.filterMap_cons, hg, ih]

theorem foldl_congr_mem {α γ : Type} :
    ∀ (l : List α) (f g : γ → α → γ) (init : γ),
      (∀ a ∈ l, ∀ acc, f acc a = g acc a) → l.foldl f init = l.foldl g init := by
  intro l
  induction l with
  | nil => intro f g init _; rfl
  | cons a l ih =>
    intro f g init h
    simp only [List.foldl_cons, h a (List.mem_cons_self a l)]
    exact ih f g _ (fun b hb acc => h b (List.mem_cons_of_mem a hb) acc)

theorem foldl_range_skip {γ : Type} (dim kernel stride pd : ℕ)
    (body : γ → ℕ → γ) (init : γ) :
    (List.range kernel).foldl (fun acc id =>
        if dOffset kernel stride pd id ≥ (dim : ℤ) ∨ dOffset kernel stride pd id < 0
        then acc else body acc (dOffset kernel stride pd id).toNat) init =
      (validOffsets1d dim kernel stride pd).foldl body init := by
  rw [validOffsets1d, foldl_filterMap]
  refine foldl_congr_mem _ _ _ init (fun id _ acc => ?_)
  by_cases h : 0 ≤ dOffset kernel stride pd id ∧ dOffset kernel stride pd id < (dim : ℤ)
  · have h' : ¬ (dOffset kernel stride pd id ≥ (dim : ℤ) ∨ dOffset kernel stride pd id < 0) := by
      omega
    simp [h, h']
  · have h' : dOffset kernel stride pd id ≥ (dim : ℤ) ∨ dOffset kernel stride pd id < 0 := by
      omega
    simp [h, h']

theorem foldl_add_map {α : Type} (m : α → ℚ) :
    ∀ (l : List α) (init : ℚ),
      l.foldl (fun acc x => acc + m x) init = init + (l.map m).sum := by
  intro l
  induction l with
  | nil => intro init; simp
  | cons a l ih => intro init; simp [ih]; ring

theorem foldl_flatMap_map {γ : Type} (body : γ → ℕ → γ) (flat : ℕ → ℕ → ℕ) :
    ∀ (l1 l2 : List ℕ) (init : γ),
      (l1.flatMap (fun y => l2.map (fun x => flat y x))).foldl body init
        = l1.foldl (fun acc y =>
            l2.foldl (fun acc x => body acc (flat y x)) acc) init := by
  intro l1
  induction l1 with
  | nil => intro l2 init; rfl
  | cons a l1 ih =>
    intro l2 init
    simp only [List.flatMap_cons, List.foldl_append, List.foldl_cons, List.foldl_map, ih]

theorem sum_map_range (f : ℕ → ℚ) :
    ∀ n : ℕ, ((List.range n).map f).sum = ∑ i ∈ Finset.range n, f i := by
  intro n
  induction n with
  | zero => rfl
  | succ n ih => simp [List.range_succ, Finset.sum_range_succ, ih]

theorem foldl_update_eval {α : Type} (g : ℕ → α) :
    ∀ (l : List ℕ) (out0 : ℕ → α) (j : ℕ), l.Nodup →
      (l.foldl (fun out i => Function.update out i (g i)) out0) j
        = if j ∈ l then g j else out0 j := by
  intro l
  induction l with
  | nil => intro out0 j _; simp
  | cons a l ih =>
    intro out0 j hnd
    rw [List.nodup_cons] at hnd
    simp only [List.foldl_cons, ih _ _ hnd.2]
    by_cases hjl : j ∈ l
    · simp [hjl]
    · by_cases hja : j = a
      · subst hja; simp [hjl, Function.update_apply]
      · simp [hjl, hja, Function.update_apply]

theorem foldl_scatter_eval (p : ℕ → Prop) [DecidablePred p] (addr : ℕ → ℕ) (w : ℕ → ℚ) :
    ∀ (l : List ℕ) (m0 : ℕ → ℚ) (a : ℕ),
      (l.foldl (fun m id => if p id then m
          else Function.update m (addr id) (m (addr id) + w id)) m0) a
        = m0 a + (l.map (fun id => if ¬ p id ∧ addr id = a then w id else 0)).sum := by
  intro l
  induction l with
  | nil => intro m0 a; simp
  | cons b l ih =>
    intro m0 a
    simp only [List.foldl_cons, List.map_cons, List.sum_cons]
    by_cases hp : p b
    · simp only [if_pos hp, ih]
      simp [hp]
    · simp only [if_neg hp, ih]
      by_cases ha : addr b = a
      · simp [hp, ha, Function.update_apply]; ring
      · simp [hp, ha, Function.update_apply, Ne.symm ha]

theorem foldl_addStep_eval (F : ℕ → (ℕ → ℚ) → (ℕ → ℚ)) (c : ℕ → ℕ → ℚ)
    (hF : ∀ index m a, F index m a = m a + c index a) :
    ∀ (l : List ℕ) (m0 : ℕ → ℚ) (a : ℕ),
      (l.foldl (fun m index => F index m) m0) a
        = m0 a + (l.map (fun index => c index a)).sum := by
  intro l
  induction l with
  | nil => intro m0 a; simp
  | cons b l ih =>
    intro m0 a
    simp only [List.foldl_cons, List.map_cons, List.sum_cons, ih, hF]
    ring

/-! Algebra of the magnitude clamp. -/

theorem sgn_zero : sgn 0 = 0 := by simp [sgn]

theorem sgn_of_pos {x : ℚ} (h : 0 < x) : sgn x = 1 := by
  simp [sgn, h, asymm h]

theorem sgn_of_neg {x : ℚ} (h : x < 0) : sgn x = -1 := by
  simp [sgn, h, asymm h]

theorem clamp_zero (lower upper : ℚ) : clamp 0 lower upper = 0 := by
  simp [clamp, sgn_zero]

theorem clamp_of_pos {n : ℚ} (lower upper : ℚ) (h : 0 < n) :
    clamp n lower upper = max lower (min n upper) := by
  simp [clamp, sgn_of_pos h, abs_of_pos h]

theorem clamp_of_neg {n : ℚ} (lower upper : ℚ) (h : n < 0) :
    clamp n lower upper = -(max lower (min (-n) upper)) := by
  simp [clamp, sgn_of_neg h, abs_of_neg h]

theorem clamp_nonneg_eq_min {n upper : ℚ} (hn : 0 ≤ n) (hu : 0 ≤ upper) :
    clamp n 0 upper = min n upper := by
  rcases lt_or_eq_of_le hn with h | h
  · rw [clamp_of_pos 0 upper h, max_eq_right (le_min (le_of_lt h) hu)]
  · rw [← h, clamp_zero, min_eq_left hu]

theorem clamp_id_of_abs_le {n upper : ℚ} (h : |n| ≤ upper) :
    clamp n 0 upper = n := by
  rcases lt_trichotomy n 0 with hn | hn | hn
  · rw [clamp_of_neg 0 upper hn]
    rw [abs_of_neg hn] at h
    rw [min_eq_left h, max_eq_right (by linarith)]
    ring
  · rw [hn, clamp_zero]
  · rw [clamp_of_pos 0 upper hn]
    rw [abs_of_pos hn] at h
    rw [min_eq_left h, max_eq_right (le_of_lt hn)]

theorem abs_clamp_le {n upper : ℚ} (hu : 0 ≤ upper) :
    |clamp n 0 upper| ≤ upper := by
  rcases lt_trichotomy n 0 with hn | hn | hn
  · rw [clamp_of_neg 0 upper hn, abs_neg,
      abs_of_nonneg (le_max_of_le_left (le_refl 0))]
    exact max_le hu (min_le_right _ _)
  · rw [hn, clamp_zero, abs_zero]; exact hu
  · rw [clamp_of_pos 0 upper hn,
      abs_of_nonneg (le_max_of_le_left (le_refl 0))]
    exact max_le hu (min_le_right _ _)

theorem clamp_nonneg_bounds {n upper : ℚ} (hn : 0 ≤ n) (hu : 0 ≤ upper) :
    0 ≤ clamp n 0 upper ∧ clamp n 0 upper ≤ n ∧ clamp n 0 upper ≤ upper := by
  rw [clamp_nonneg_eq_min hn hu]
  exact ⟨le_min hn hu, min_le_left _ _, min_le_right _ _⟩

/-! Structure of the valid-offset lists. -/

theorem mem_validOffsets1d {dim kernel stride pd j : ℕ} :
    j ∈ validOffsets1d dim kernel stride pd ↔
      ∃ id, id < kernel ∧ dOffset kernel stride pd id = (j : ℤ) ∧ j < dim := by
  simp only [validOffsets1d, List.mem_filterMap, List.mem_range]
  constructor
  · rintro ⟨id, hid, hsome⟩
    by_cases h : 0 ≤ dOffset kernel stride pd id ∧ dOffset kernel stride pd id < (dim : ℤ)
    · rw [if_pos h] at hsome
      have hsome' : (dOffset kernel stride pd id).toNat = j := by
        simpa using hsome
      refine ⟨id, hid, ?_, ?_⟩ <;> omega
    · rw [if_neg h] at hsome
      exact absurd hsome (by simp)
  · rintro ⟨id, hid, hoff, hj⟩
    refine ⟨id, hid, ?_⟩
    rw [if_pos (by omega)]
    simp; omega

theorem validOffsets1d_lt {dim kernel stride pd j : ℕ}
    (h : j ∈ validOffsets1d dim kernel stride pd) : j < dim := by
  rcases mem_validOffsets1d.1 h with ⟨id, _, _, hj⟩
  exact hj

theorem specCells2d_lt {height width kernel_h kernel_w stride_h stride_w ph pw j : ℕ}
    (h : j ∈ specCells2d height width kernel_h kernel_w stride_h stride_w ph pw) :
    j < height * width := by
  simp only [specCells2d, List.mem_flatMap, List.mem_map] at h
  rcases h with ⟨y, hy, x, hx, rfl⟩
  have hy' := validOffsets1d_lt hy
  have hx' := validOffsets1d_lt hx
  calc flatOffset2d width y x < y * width + width := by
        simp only [flatOffset2d]; omega
    _ ≤ height * width := by nlinarith

/-! The loop-with-continue folds of the kernels equal folds over the
valid-cell lists. -/

theorem foldl2d_skip {γ : Type} (height width kh kw sh sw ph pw : ℕ)
    (body : γ → ℕ → γ) (init : γ) :
    (List.range kh).foldl (fun acc iy =>
        if dOffset kh sh ph iy ≥ (height : ℤ) ∨ dOffset kh sh ph iy < 0 then acc
        else (List.range kw).foldl (fun acc ix =>
          if dOffset kw sw pw ix ≥ (width : ℤ) ∨ dOffset kw sw pw ix < 0 then acc
          else body acc
            (flatOffset2d width (dOffset kh sh ph iy).toNat (dOffset kw sw pw ix).toNat))
          acc) init
      = (specCells2d height width kh kw sh sw ph pw).foldl body init := by
  rw [specCells2d, foldl_flatMap_map]
  have houter := foldl_range_skip (γ := γ) height kh sh ph
    (fun acc y => (List.range kw).foldl (fun acc ix =>
      if dOffset kw sw pw ix ≥ (width : ℤ) ∨ dOffset kw sw pw ix < 0 then acc
      else body acc (flatOffset2d width y (dOffset kw sw pw ix).toNat)) acc) init
  rw [houter]
  refine foldl_congr_mem _ _ _ init (fun y _ acc => ?_)
  exact foldl_range_skip width kw sw pw (fun acc x => body acc (flatOffset2d width y x)) acc

theorem maskSum1d_eq_sum (fexp : ℚ → ℚ) (upper : ℚ) (inp : ℕ → ℚ)
    (dim kernel_d stride_d pd : ℕ) :
    maskSum1d fexp upper inp dim kernel_d stride_d pd
      = ((validOffsets1d dim kernel_d stride_d pd).map
          (fun j => clamp (fexp (inp j)) 0 upper)).sum := by
  have h := foldl_range_skip (γ := ℚ) dim kernel_d stride_d pd
    (fun acc j => acc + clamp (fexp (inp j)) 0 upper) 0
  have h2 := foldl_add_map (fun j => clamp (fexp (inp j)) 0 upper)
    (validOffsets1d dim kernel_d stride_d pd) 0
  calc maskSum1d fexp upper inp dim kernel_d stride_d pd
      = (validOffsets1d dim kernel_d stride_d pd).foldl
          (fun acc j => acc + clamp (fexp (inp j)) 0 upper) 0 := h
    _ = ((validOffsets1d dim kernel_d stride_d pd).map
          (fun j => clamp (fexp (inp j)) 0 upper)).sum := by rw [h2]; ring

theorem maskSum2d_eq_sum (fexp : ℚ → ℚ) (upper : ℚ) (inp : ℕ → ℚ)
    (height width kernel_h kernel_w stride_h stride_w ph pw : ℕ) :
    maskSum2d fexp upper inp height width kernel_h kernel_w stride_h stride_w ph pw
      = ((specCells2d height width kernel_h kernel_w stride_h stride_w ph pw).map
          (fun j => clamp (fexp (inp j)) 0 upper)).sum := by
  have h := foldl2d_skip (γ := ℚ) height width kernel_h kernel_w stride_h stride_w ph pw
    (fun acc j => acc + clamp (fexp (inp j)) 0 upper) 0
  have h2 := foldl_add_map (fun j => clamp (fexp (inp j)) 0 upper)
    (specCells2d height width kernel_h kernel_w stride_h stride_w ph pw) 0
  calc maskSum2d fexp upper inp height width kernel_h kernel_w stride_h stride_w ph pw
      = (specCells2d height width kernel_h kernel_w stride_h stride_w ph pw).foldl
          (fun acc j => acc + clamp (fexp (inp j)) 0 upper) 0 := h
    _ = _ := by rw [h2]; ring

theorem softPool1dForwardCell_eq_spec (fexp : ℚ → ℚ) (lower upper : ℚ) (inp : ℕ → ℚ)
    (dim kernel_d stride_d pd : ℕ) :
    softPool1dForwardCell fexp lower upper inp dim kernel_d stride_d pd
      = specForward1dCell fexp lower upper inp dim kernel_d stride_d pd := by
  simp only [softPool1dForwardCell, specForward1dCell, maskSumClamped1d, maskSum1d_eq_sum]
  set ms := clamp ((List.map (fun j => clamp (fexp (inp j)) 0 upper)
    (validOffsets1d dim kernel_d stride_d pd)).sum) lower upper with hms
  exact foldl_range_skip dim kernel_d stride_d pd
    (fun acc j => clamp (acc +
      clamp (inp j * clamp (clamp (fexp (inp j)) 0 upper / ms) 0 upper) 0 upper) 0 upper) 0

theorem softPool2dForwardCell_eq_spec (fexp : ℚ → ℚ) (lower upper : ℚ) (inp : ℕ → ℚ)
    (height width kernel_h kernel_w stride_h stride_w ph pw : ℕ) :
    softPool2dForwardCell fexp lower upper inp height width kernel_h kernel_w
        stride_h stride_w ph pw
      = specForward2dCell fexp lower upper inp height width kernel_h kernel_w
          stride_h stride_w ph pw := by
  simp only [softPool2dForwardCell, specForward2dCell, maskSumClamped2d, maskSum2d_eq_sum]
  set ms := clamp ((List.map (fun j => clamp (fexp (inp j)) 0 upper)
    (specCells2d height width kernel_h kernel_w stride_h stride_w ph pw)).sum) lower upper with hms
  exact foldl2d_skip height width kernel_h kernel_w stride_h stride_w ph pw
    (fun acc j => clamp (acc +
      clamp (inp j * clamp (clamp (fexp (inp j)) 0 upper / ms) 0 upper) 0 upper) 0 upper) 0

/-! Each flat output index below `nthreads` receives exactly its own cell
value, independently of the output buffer's initial contents. -/

theorem softPool1dForwardRun_eval (fexp : ℚ → ℚ) (lower upper : ℚ) (nthreads : ℕ)
    (inp : ℕ → ℚ) (channels dim kernel_d stride_d : ℕ) (output0 : ℕ → ℚ)
    (index : ℕ) (h : index < nthreads) :
    softPool1dForwardRun fexp lower upper nthreads inp channels dim kernel_d stride_d
        output0 index
      = forwardCellAt1d fexp lower upper inp channels dim kernel_d stride_d index := by
  rw [softPool1dForwardRun,
    foldl_update_eval _ (List.range nthreads) output0 index (List.nodup_range nthreads)]
  simp [List.mem_range, h]

theorem softPool2dForwardRun_eval (fexp : ℚ → ℚ) (lower upper : ℚ) (nthreads : ℕ)
    (inp : ℕ → ℚ) (channels height width kernel_h kernel_w stride_h stride_w : ℕ)
    (output0 : ℕ → ℚ) (index : ℕ) (h : index < nthreads) :
    softPool2dForwardRun fexp lower upper nthreads inp channels height width
        kernel_h kernel_w stride_h stride_w output0 index
      = forwardCellAt2d fexp lower upper inp channels height width
          kernel_h kernel_w stride_h stride_w index := by
  rw [softPool2dForwardRun,
    foldl_update_eval _ (List.range nthreads) output0 index (List.nodup_range nthreads)]
  simp [List.mem_range, h]

theorem softPool3dForwardRun_eval (fexp : ℚ → ℚ) (lower upper : ℚ) (nthreads : ℕ)
    (inp : ℕ → ℚ)
    (channels depth height width kernel_d kernel_h kernel_w
      stride_d stride_h stride_w : ℕ)
    (output0 : ℕ → ℚ) (index : ℕ) (h : index < nthreads) :
    softPool3dForwardRun fexp lower upper nthreads inp channels depth height width
        kernel_d kernel_h kernel_w stride_d stride_h stride_w output0 index
      = forwardCellAt3d fexp lower upper inp channels depth height width
          kernel_d kernel_h kernel_w stride_d stride_h stride_w index := by
  rw [softPool3dForwardRun,
    foldl_update_eval _ (List.range nthreads) output0 index (List.nodup_range nthreads)]
  simp [List.mem_range, h]

/-! Magnitude bound on the forward accumulator. -/

theorem foldl_invariant {α γ : Type} (P : γ → Prop) (f : γ → α → γ)
    (hstep : ∀ acc a, P acc → P (f acc a)) :
    ∀ (l : List α) (init : γ), P init → P (l.foldl f init) := by
  intro l
  induction l with
  | nil => intro init h; exact h
  | cons a l ih => intro init h; exact ih _ (hstep init a h)

theorem abs_softPool1dForwardCell_le (fexp : ℚ → ℚ) (lower upper : ℚ) (inp : ℕ → ℚ)
    (dim kernel_d stride_d pd : ℕ) (hu : 0 ≤ upper) :
    |softPool1dForwardCell fexp lower upper inp dim kernel_d stride_d pd| ≤ upper := by
  rw [softPool1dForwardCell]
  refine foldl_invariant (fun out => |out| ≤ upper) _ (fun out id hout => ?_)
    (List.range kernel_d) 0 (by simpa using hu)
  by_cases hskip : dOffset kernel_d stride_d pd id ≥ (dim : ℤ) ∨
      dOffset kernel_d stride_d pd id < 0
  · simpa [hskip] using hout
  · simp only [if_neg hskip]
    exact abs_clamp_le hu

/-! Bounds on the clamped normalized weight. -/

theorem maskSum1d_nonneg (fexp : ℚ → ℚ) (upper : ℚ) (inp : ℕ → ℚ)
    (dim kernel_d stride_d pd : ℕ) (hexp : ∀ x, 0 ≤ fexp x) (hu : 0 ≤ upper) :
    0 ≤ maskSum1d fexp upper inp dim kernel_d stride_d pd := by
  rw [maskSum1d_eq_sum]
  refine List.sum_nonneg (fun x hx => ?_)
  rcases List.mem_map.1 hx with ⟨j, _, rfl⟩
  exact (clamp_nonneg_bounds (hexp (inp j)) hu).1

theorem mask_le_maskSum1d (fexp : ℚ → ℚ) (upper : ℚ) (inp : ℕ → ℚ)
    (dim kernel_d stride_d pd j : ℕ) (hexp : ∀ x, 0 ≤ fexp x) (hu : 0 ≤ upper)
    (hj : j ∈ validOffsets1d dim kernel_d stride_d pd) :
    clamp (fexp (inp j)) 0 upper ≤ maskSum1d fexp upper inp dim kernel_d stride_d pd := by
  rw [maskSum1d_eq_sum]
  refine List.single_le_sum (fun x hx => ?_) _ (List.mem_map_of_mem _ hj)
  rcases List.mem_map.1 hx with ⟨i, _, rfl⟩
  exact (clamp_nonneg_bounds (hexp (inp i)) hu).1

theorem weight1d_bounds (fexp : ℚ → ℚ) (lower upper : ℚ) (inp : ℕ → ℚ)
    (dim kernel_d stride_d pd j : ℕ)
    (hexp : ∀ x, 0 ≤ fexp x) (hl : 0 < lower) (hlu : lower ≤ upper) (h1u : (1:ℚ) ≤ upper)
    (hj : j ∈ validOffsets1d dim kernel_d stride_d pd) :
    0 ≤ weight1d fexp lower upper inp dim kernel_d stride_d pd j ∧
      weight1d fexp lower upper inp dim kernel_d stride_d pd j ≤ 1 := by
  have hu0 : (0:ℚ) ≤ upper := le_trans hl.le hlu
  obtain ⟨hm0, hmf, hmu⟩ := clamp_nonneg_bounds (hexp (inp j)) hu0
  have hS0 : 0 ≤ maskSum1d fexp upper inp dim kernel_d stride_d pd :=
    maskSum1d_nonneg fexp upper inp dim kernel_d stride_d pd hexp hu0
  have hmS := mask_le_maskSum1d fexp upper inp dim kernel_d stride_d pd j hexp hu0 hj
  rw [weight1d, maskSumClamped1d]
  rcases eq_or_lt_of_le hS0 with h0 | h0
  · have hm00 : clamp (fexp (inp j)) 0 upper = 0 :=
      le_antisymm (h0 ▸ hmS) hm0
    rw [← h0, clamp_zero, hm00, zero_div, clamp_zero]
    norm_num
  · have hcs : clamp (maskSum1d fexp upper inp dim kernel_d stride_d pd) lower upper
        = max lower (min (maskSum1d fexp upper inp dim kernel_d stride_d pd) upper) :=
      clamp_of_pos _ _ h0
    have hcs0 : 0 < clamp (maskSum1d fexp upper inp dim kernel_d stride_d pd) lower upper := by
      rw [hcs]; exact lt_of_lt_of_le hl (le_max_left _ _)
    have hmcs : clamp (fexp (inp j)) 0 upper
        ≤ clamp (maskSum1d fexp upper inp dim kernel_d stride_d pd) lower upper := by
      rw [hcs]; exact le_trans (le_min hmS hmu) (le_max_right _ _)
    have hr0 : 0 ≤ clamp (fexp (inp j)) 0 upper
        / clamp (maskSum1d fexp upper inp dim kernel_d stride_d pd) lower upper :=
      div_nonneg hm0 hcs0.le
    have hr1 : clamp (fexp (inp j)) 0 upper
        / clamp (maskSum1d fexp upper inp dim kernel_d stride_d pd) lower upper ≤ 1 :=
      (div_le_one hcs0).2 hmcs
    rw [clamp_nonneg_eq_min hr0 hu0]
    exact ⟨le_min hr0 hu0, le_trans (min_le_left _ _) hr1⟩

theorem clamp_mul_weight_eq (g w upper : ℚ) (hg : |g| ≤ upper)
    (hw0 : 0 ≤ w) (hw1 : w ≤ 1) : clamp (g * w) 0 upper = g * w := by
  have hu0 : 0 ≤ upper := le_trans (abs_nonneg g) hg
  refine clamp_id_of_abs_le ?_
  rw [abs_mul, abs_of_nonneg hw0]
  calc |g| * w ≤ upper * 1 :=
        mul_le_mul hg hw1 hw0 hu0
    _ = upper := mul_one upper

/-! Decomposition of the 1-D backward scatter into per-window contributions. -/

theorem dOffset_inj {kernel stride pd b b' : ℕ}
    (h : dOffset kernel stride pd b = dOffset kernel stride pd b') : b = b' := by
  simp only [dOffset] at h
  omega

theorem covers1d_iff {channels dim kernel_d stride_d index a : ℕ} :
    covers1d channels dim kernel_d stride_d index a = true ↔
      ∃ j ∈ validOffsets1d dim kernel_d stride_d (pd1d dim stride_d index),
        base1d channels dim stride_d index + j = a := by
  simp [covers1d, List.any_eq_true, beq_iff_eq]

theorem backwardStep1d_eval (fexp : ℚ → ℚ) (lower upper : ℚ)
    (diff_output data_input : ℕ → ℚ) (channels dim kernel_d stride_d index : ℕ)
    (m : ℕ → ℚ) (a : ℕ) :
    backwardStep1d fexp lower upper diff_output data_input
        channels dim kernel_d stride_d index m a
      = m a + ((List.range kernel_d).map (fun id =>
          if ¬ (dOffset kernel_d stride_d (pd1d dim stride_d index) id ≥ (dim : ℤ) ∨
                dOffset kernel_d stride_d (pd1d dim stride_d index) id < 0) ∧
              base1d channels dim stride_d index +
                (dOffset kernel_d stride_d (pd1d dim stride_d index) id).toNat = a
          then clamp (diff_output index *
                clamp (clamp (fexp (data_input (base1d channels dim stride_d index +
                      (dOffset kernel_d stride_d (pd1d dim stride_d index) id).toNat))) 0 upper /
                  maskSumClamped1d fexp lower upper
                    (fun j => data_input (base1d channels dim stride_d index + j))
                    dim kernel_d stride_d (pd1d dim stride_d index)) 0 upper) 0 upper
          else 0)).sum :=
  foldl_scatter_eval _ _ _ (List.range kernel_d) m a

theorem backwardContrib1d_eq (fexp : ℚ → ℚ) (lower upper : ℚ)
    (diff_output data_input : ℕ → ℚ) (channels dim kernel_d stride_d index a : ℕ)
    (hexp : ∀ x, 0 ≤ fexp x) (hl : 0 < lower) (hlu : lower ≤ upper)
    (h1u : (1:ℚ) ≤ upper) (hdout : |diff_output index| ≤ upper) :
    ((List.range kernel_d).map (fun id =>
        if ¬ (dOffset kernel_d stride_d (pd1d dim stride_d index) id ≥ (dim : ℤ) ∨
              dOffset kernel_d stride_d (pd1d dim stride_d index) id < 0) ∧
            base1d channels dim stride_d index +
              (dOffset kernel_d stride_d (pd1d dim stride_d index) id).toNat = a
        then clamp (diff_output index *
              clamp (clamp (fexp (data_input (base1d channels dim stride_d index +
                    (dOffset kernel_d stride_d (pd1d dim stride_d index) id).toNat))) 0 upper /
                maskSumClamped1d fexp lower upper
                  (fun j => data_input (base1d channels dim stride_d index + j))
                  dim kernel_d stride_d (pd1d dim stride_d index)) 0 upper) 0 upper
        else 0)).sum
      = if covers1d channels dim kernel_d stride_d index a
        then diff_output index * weight1d fexp lower upper
            (fun j => data_input (base1d channels dim stride_d index + j))
            dim kernel_d stride_d (pd1d dim stride_d index)
            (a - base1d channels dim stride_d index)
        else 0 := by
  rw [sum_map_range]
  by_cases hc : covers1d channels dim kernel_d stride_d index a = true
  · rcases covers1d_iff.1 hc with ⟨j, hjv, hja⟩
    rcases mem_validOffsets1d.1 hjv with ⟨id0, hid0, hoff0, hjdim⟩
    rw [Finset.sum_eq_single id0]
    · have hskip : ¬ (dOffset kernel_d stride_d (pd1d dim stride_d index) id0 ≥ (dim : ℤ) ∨
          dOffset kernel_d stride_d (pd1d dim stride_d index) id0 < 0) := by omega
      have htn : (dOffset kernel_d stride_d (pd1d dim stride_d index) id0).toNat = j := by
        omega
      rw [if_pos ⟨hskip, by rw [htn]; exact hja⟩, htn, if_pos hc]
      have hsub : a - base1d channels dim stride_d index = j := by omega
      rw [hsub]
      obtain ⟨hw0, hw1⟩ := weight1d_bounds fexp lower upper
        (fun j => data_input (base1d channels dim stride_d index + j))
        dim kernel_d stride_d (pd1d dim stride_d index) j hexp hl hlu h1u hjv
      rw [show clamp (clamp (fexp (data_input (base1d channels dim stride_d index + j))) 0 upper /
            maskSumClamped1d fexp lower upper
              (fun j => data_input (base1d channels dim stride_d index + j))
              dim kernel_d stride_d (pd1d dim stride_d index)) 0 upper
          = weight1d fexp lower upper
              (fun j => data_input (base1d channels dim stride_d index + j))
              dim kernel_d stride_d (pd1d dim stride_d index) j from rfl]
      exact clamp_mul_weight_eq _ _ _ hdout hw0 hw1
    · intro b hb hbne
      by_cases hcond : ¬ (dOffset kernel_d stride_d (pd1d dim stride_d index) b ≥ (dim : ℤ) ∨
            dOffset kernel_d stride_d (pd1d dim stride_d index) b < 0) ∧
          base1d channels dim stride_d index +
            (dOffset kernel_d stride_d (pd1d dim stride_d index) b).toNat = a
      · exfalso
        have hbj : (dOffset kernel_d stride_d (pd1d dim stride_d index) b).toNat = j := by
          omega
        have : dOffset kernel_d stride_d (pd1d dim stride_d index) b
            = dOffset kernel_d stride_d (pd1d dim stride_d index) id0 := by omega
        exact hbne (dOffset_inj this)
      · rw [if_neg hcond]
    · intro habs
      exact absurd (Finset.mem_range.2 hid0) habs
  · rw [if_neg hc]
    refine Finset.sum_eq_zero (fun b hb => ?_)
    by_cases hcond : ¬ (dOffset kernel_d stride_d (pd1d dim stride_d index) b ≥ (dim : ℤ) ∨
          dOffset kernel_d stride_d (pd1d dim stride_d index) b < 0) ∧
        base1d channels dim stride_d index +
          (dOffset kernel_d stride_d (pd1d dim stride_d index) b).toNat = a
    · exfalso
      refine hc (covers1d_iff.2
        ⟨(dOffset kernel_d stride_d (pd1d dim stride_d index) b).toNat, ?_, hcond.2⟩)
      refine mem_validOffsets1d.2 ⟨b, Finset.mem_range.1 hb, ?_, ?_⟩ <;> omega
    · rw [if_neg hcond]

theorem softPool1dBackwardRun_eval (fexp : ℚ → ℚ) (lower upper : ℚ) (nthreads : ℕ)
    (diff_output data_input : ℕ → ℚ) (channels dim kernel_d stride_d : ℕ)
    (diff_input0 : ℕ → ℚ) (a : ℕ) :
    softPool1dBackwardRun fexp lower upper nthreads diff_output data_input
        channels dim kernel_d stride_d diff_input0 a
      = diff_input0 a + ((List.range nthreads).map (fun index =>
          ((List.range kernel_d).map (fun id =>
            if ¬ (dOffset kernel_d stride_d (pd1d dim stride_d index) id ≥ (dim : ℤ) ∨
                  dOffset kernel_d stride_d (pd1d dim stride_d index) id < 0) ∧
                base1d channels dim stride_d index +
                  (dOffset kernel_d stride_d (pd1d dim stride_d index) id).toNat = a
            then clamp (diff_output index *
                  clamp (clamp (fexp (data_input (base1d channels dim stride_d index +
                        (dOffset kernel_d stride_d (pd1d dim stride_d index) id).toNat))) 0 upper /
                    maskSumClamped1d fexp lower upper
                      (fun j => data_input (base1d channels dim stride_d index + j))
                      dim kernel_d stride_d (pd1d dim stride_d index)) 0 upper) 0 upper
            else 0)).sum)).sum := by
  rw [softPool1dBackwardRun]
  exact foldl_addStep_eval _ _
    (fun index m a => backwardStep1d_eval fexp lower upper diff_output data_input
      channels dim kernel_d stride_d index m a)
    (List.range nthreads) diff_input0 a

/-! Decomposition of the 2-D backward scatter into per-window contributions. -/

theorem maskSum2d_nonneg (fexp : ℚ → ℚ) (upper : ℚ) (inp : ℕ → ℚ)
    (height width kernel_h kernel_w stride_h stride_w ph pw : ℕ)
    (hexp : ∀ x, 0 ≤ fexp x) (hu : 0 ≤ upper) :
    0 ≤ maskSum2d fexp upper inp height width kernel_h kernel_w stride_h stride_w ph pw := by
  rw [maskSum2d_eq_sum]
  refine List.sum_nonneg (fun x hx => ?_)
  rcases List.mem_map.1 hx with ⟨j, _, rfl⟩
  exact (clamp_nonneg_bounds (hexp (inp j)) hu).1

theorem mask_le_maskSum2d (fexp : ℚ → ℚ) (upper : ℚ) (inp : ℕ → ℚ)
    (height width kernel_h kernel_w stride_h stride_w ph pw j : ℕ)
    (hexp : ∀ x, 0 ≤ fexp x) (hu : 0 ≤ upper)
    (hj : j ∈ specCells2d height width kernel_h kernel_w stride_h stride_w ph pw) :
    clamp (fexp (inp j)) 0 upper
      ≤ maskSum2d fexp upper inp height width kernel_h kernel_w stride_h stride_w ph pw := by
  rw [maskSum2d_eq_sum]
  refine List.single_le_sum (fun x hx => ?_) _ (List.mem_map_of_mem _ hj)
  rcases List.mem_map.1 hx with ⟨i, _, rfl⟩
  exact (clamp_nonneg_bounds (hexp (inp i)) hu).1

theorem weight2d_bounds (fexp : ℚ → ℚ) (lower upper : ℚ) (inp : ℕ → ℚ)
    (height width kernel_h kernel_w stride_h stride_w ph pw j : ℕ)
    (hexp : ∀ x, 0 ≤ fexp x) (hl : 0 < lower) (hlu : lower ≤ upper) (h1u : (1:ℚ) ≤ upper)
    (hj : j ∈ specCells2d height width kernel_h kernel_w stride_h stride_w ph pw) :
    0 ≤ weight2d fexp lower upper inp height width kernel_h kernel_w stride_h stride_w
        ph pw j ∧
      weight2d fexp lower upper inp height width kernel_h kernel_w stride_h stride_w
        ph pw j ≤ 1 := by
  have hu0 : (0:ℚ) ≤ upper := le_trans hl.le hlu
  obtain ⟨hm0, hmf, hmu⟩ := clamp_nonneg_bounds (hexp (inp j)) hu0
  have hS0 : 0 ≤ maskSum2d fexp upper inp height width kernel_h kernel_w stride_h
      stride_w ph pw :=
    maskSum2d_nonneg fexp upper inp height width kernel_h kernel_w stride_h stride_w
      ph pw hexp hu0
  have hmS := mask_le_maskSum2d fexp upper inp height width kernel_h kernel_w stride_h
    stride_w ph pw j hexp hu0 hj
  rw [weight2d, maskSumClamped2d]
  rcases eq_or_lt_of_le hS0 with h0 | h0
  · have hm00 : clamp (fexp (inp j)) 0 upper = 0 :=
      le_antisymm (h0 ▸ hmS) hm0
    rw [← h0, clamp_zero, hm00, zero_div, clamp_zero]
    norm_num
  · have hcs : clamp (maskSum2d fexp upper inp height width kernel_h kernel_w stride_h
          stride_w ph pw) lower upper
        = max lower (min (maskSum2d fexp upper inp height width kernel_h kernel_w
            stride_h stride_w ph pw) upper) :=
      clamp_of_pos _ _ h0
    have hcs0 : 0 < clamp (maskSum2d fexp upper inp height width kernel_h kernel_w
        stride_h stride_w ph pw) lower upper := by
      rw [hcs]; exact lt_of_lt_of_le hl (le_max_left _ _)
    have hmcs : clamp (fexp (inp j)) 0 upper
        ≤ clamp (maskSum2d fexp upper inp height width kernel_h kernel_w stride_h
            stride_w ph pw) lower upper := by
      rw [hcs]; exact le_trans (le_min hmS hmu) (le_max_right _ _)
    have hr0 : 0 ≤ clamp (fexp (inp j)) 0 upper
        / clamp (maskSum2d fexp upper inp height width kernel_h kernel_w stride_h
            stride_w ph pw) lower upper :=
      div_nonneg hm0 hcs0.le
    have hr1 : clamp (fexp (inp j)) 0 upper
        / clamp (maskSum2d fexp upper inp height width kernel_h kernel_w stride_h
            stride_w ph pw) lower upper ≤ 1 :=
      (div_le_one hcs0).2 hmcs
    rw [clamp_nonneg_eq_min hr0 hu0]
    exact ⟨le_min hr0 hu0, le_trans (min_le_left _ _) hr1⟩

theorem flatOffset2d_inj {width y x y' x' : ℕ} (hx : x < width) (hx' : x' < width)
    (h : flatOffset2d width y x = flatOffset2d width y' x') : y = y' ∧ x = x' := by
  have hw : 0 < width := lt_of_le_of_lt (Nat.zero_le x) hx
  simp only [flatOffset2d] at h
  have h1 : x + y * width = x' + y' * width := by omega
  have e1 : (x + y * width) / width = y := by
    rw [Nat.add_mul_div_right _ _ hw, Nat.div_eq_of_lt hx, Nat.zero_add]
  have e2 : (x' + y' * width) / width = y' := by
    rw [Nat.add_mul_div_right _ _ hw, Nat.div_eq_of_lt hx', Nat.zero_add]
  have hy : y = y' := by rw [← e1, ← e2, h1]
  subst hy
  exact ⟨rfl, by omega⟩

theorem mem_specCells2d {height width kernel_h kernel_w stride_h stride_w ph pw j : ℕ} :
    j ∈ specCells2d height width kernel_h kernel_w stride_h stride_w ph pw ↔
      ∃ y ∈ validOffsets1d height kernel_h stride_h ph,
        ∃ x ∈ validOffsets1d width kernel_w stride_w pw, flatOffset2d width y x = j := by
  simp only [specCells2d, List.mem_flatMap, List.mem_map]

theorem double_scatter_eval (p q : ℕ → Prop) [DecidablePred p] [DecidablePred q]
    (addr : ℕ → ℕ → ℕ) (w : ℕ → ℕ → ℚ) (kh kw : ℕ) (m0 : ℕ → ℚ) (a : ℕ) :
    ((List.range kh).foldl (fun m iy =>
        if p iy then m
        else (List.range kw).foldl (fun m ix =>
          if q ix then m
          else Function.update m (addr iy ix) (m (addr iy ix) + w iy ix)) m) m0) a
      = m0 a + ((List.range kh).map (fun iy =>
          if p iy then 0
          else ((List.range kw).map (fun ix =>
            if ¬ q ix ∧ addr iy ix = a then w iy ix else 0)).sum)).sum := by
  refine foldl_addStep_eval
    (fun iy m => if p iy then m
      else (List.range kw).foldl (fun m ix =>
        if q ix then m else Function.update m (addr iy ix) (m (addr iy ix) + w iy ix)) m)
    (fun iy b => if p iy then 0
      else ((List.range kw).map (fun ix =>
        if ¬ q ix ∧ addr iy ix = b then w iy ix else 0)).sum)
    (fun iy m b => ?_) (List.range kh) m0 a
  by_cases hy : p iy
  · simp [hy]
  · simp only [if_neg hy]
    exact foldl_scatter_eval q (addr iy) (w iy) (List.range kw) m b

theorem backwardContrib2d_eq (fexp : ℚ → ℚ) (lower upper g : ℚ) (dinp : ℕ → ℚ)
    (height width kernel_h kernel_w stride_h stride_w ph pw base a : ℕ)
    (hexp : ∀ x, 0 ≤ fexp x) (hl : 0 < lower) (hlu : lower ≤ upper)
    (h1u : (1:ℚ) ≤ upper) (hg : |g| ≤ upper) :
    ((List.range kernel_h).map (fun iy =>
        if dOffset kernel_h stride_h ph iy ≥ (height : ℤ) ∨
            dOffset kernel_h stride_h ph iy < 0 then 0
        else ((List.range kernel_w).map (fun ix =>
          if ¬ (dOffset kernel_w stride_w pw ix ≥ (width : ℤ) ∨
                dOffset kernel_w stride_w pw ix < 0) ∧
              base + flatOffset2d width (dOffset kernel_h stride_h ph iy).toNat
                (dOffset kernel_w stride_w pw ix).toNat = a
          then clamp (g * clamp (clamp (fexp (dinp (base +
                  flatOffset2d width (dOffset kernel_h stride_h ph iy).toNat
                    (dOffset kernel_w stride_w pw ix).toNat))) 0 upper /
                maskSumClamped2d fexp lower upper (fun j => dinp (base + j))
                  height width kernel_h kernel_w stride_h stride_w ph pw) 0 upper) 0 upper
          else 0)).sum)).sum
      = if (specCells2d height width kernel_h kernel_w stride_h stride_w ph pw).any
            (fun j => base + j == a)
        then g * weight2d fexp lower upper (fun j => dinp (base + j))
            height width kernel_h kernel_w stride_h stride_w ph pw (a - base)
        else 0 := by
  rw [sum_map_range]
  by_cases hc : (specCells2d height width kernel_h kernel_w stride_h stride_w ph pw).any
      (fun j => base + j == a) = true
  · rcases (by simpa [List.any_eq_true, beq_iff_eq] using hc :
        ∃ j ∈ specCells2d height width kernel_h kernel_w stride_h stride_w ph pw,
          base + j = a) with ⟨j, hjmem, hja⟩
    rcases mem_specCells2d.1 hjmem with ⟨y, hy, x, hx, hflat⟩
    rcases mem_validOffsets1d.1 hy with ⟨iy0, hiy0, hyoff, hydim⟩
    rcases mem_validOffsets1d.1 hx with ⟨ix0, hix0, hxoff, hxdim⟩
    rw [Finset.sum_eq_single iy0]
    · have hyskip : ¬ (dOffset kernel_h stride_h ph iy0 ≥ (height : ℤ) ∨
          dOffset kernel_h stride_h ph iy0 < 0) := by omega
      have hytn : (dOffset kernel_h stride_h ph iy0).toNat = y := by omega
      rw [if_neg hyskip, sum_map_range, Finset.sum_eq_single ix0]
      · have hxskip : ¬ (dOffset kernel_w stride_w pw ix0 ≥ (width : ℤ) ∨
            dOffset kernel_w stride_w pw ix0 < 0) := by omega
        have hxtn : (dOffset kernel_w stride_w pw ix0).toNat = x := by omega
        rw [if_pos ⟨hxskip, by rw [hytn, hxtn, hflat]; exact hja⟩, hytn, hxtn, hflat,
          if_pos hc]
        have hsub : a - base = j := by omega
        rw [hsub]
        obtain ⟨hw0, hw1⟩ := weight2d_bounds fexp lower upper (fun j => dinp (base + j))
          height width kernel_h kernel_w stride_h stride_w ph pw j hexp hl hlu h1u hjmem
        rw [show clamp (clamp (fexp (dinp (base + j))) 0 upper /
              maskSumClamped2d fexp lower upper (fun j => dinp (base + j))
                height width kernel_h kernel_w stride_h stride_w ph pw) 0 upper
            = weight2d fexp lower upper (fun j => dinp (base + j))
                height width kernel_h kernel_w stride_h stride_w ph pw j from rfl]
        exact clamp_mul_weight_eq _ _ _ hg hw0 hw1
      · intro ix hix hixne
        by_cases hcond : ¬ (dOffset kernel_w stride_w pw ix ≥ (width : ℤ) ∨
              dOffset kernel_w stride_w pw ix < 0) ∧
            base + flatOffset2d width (dOffset kernel_h stride_h ph iy0).toNat
              (dOffset kernel_w stride_w pw ix).toNat = a
        · exfalso
          have hxw : (dOffset kernel_w stride_w pw ix).toNat < width := by omega
          have hflat2 : flatOffset2d width y (dOffset kernel_w stride_w pw ix).toNat
              = flatOffset2d width y x := by
            rw [hflat]
            rw [hytn] at hcond
            omega
          have hxx := (flatOffset2d_inj hxw (validOffsets1d_lt hx) hflat2).2
          exact hixne (dOffset_inj (show dOffset kernel_w stride_w pw ix
            = dOffset kernel_w stride_w pw ix0 by omega))
        · rw [if_neg hcond]
      · intro habs
        exact absurd (Finset.mem_range.2 hix0) habs
    · intro iy hiy hiyne
      by_cases hyskip : dOffset kernel_h stride_h ph iy ≥ (height : ℤ) ∨
          dOffset kernel_h stride_h ph iy < 0
      · rw [if_pos hyskip]
      · rw [if_neg hyskip, sum_map_range]
        refine Finset.sum_eq_zero (fun ix _ => ?_)
        by_cases hcond : ¬ (dOffset kernel_w stride_w pw ix ≥ (width : ℤ) ∨
              dOffset kernel_w stride_w pw ix < 0) ∧
            base + flatOffset2d width (dOffset kernel_h stride_h ph iy).toNat
              (dOffset kernel_w stride_w pw ix).toNat = a
        · exfalso
          have hxw : (dOffset kernel_w stride_w pw ix).toNat < width := by omega
          have hflat2 : flatOffset2d width (dOffset kernel_h stride_h ph iy).toNat
              (dOffset kernel_w stride_w pw ix).toNat = flatOffset2d width y x := by
            rw [hflat]; omega
          have hyy := (flatOffset2d_inj hxw (validOffsets1d_lt hx) hflat2).1
          exact hiyne (dOffset_inj (show dOffset kernel_h stride_h ph iy
            = dOffset kernel_h stride_h ph iy0 by omega))
        · rw [if_neg hcond]
    · intro habs
      exact absurd (Finset.mem_range.2 hiy0) habs
  · rw [if_neg hc]
    refine Finset.sum_eq_zero (fun iy hiymem => ?_)
    by_cases hyskip : dOffset kernel_h stride_h ph iy ≥ (height : ℤ) ∨
        dOffset kernel_h stride_h ph iy < 0
    · rw [if_pos hyskip]
    · rw [if_neg hyskip, sum_map_range]
      refine Finset.sum_eq_zero (fun ix hixmem => ?_)
      by_cases hcond : ¬ (dOffset kernel_w stride_w pw ix ≥ (width : ℤ) ∨
            dOffset kernel_w stride_w pw ix < 0) ∧
          base + flatOffset2d width (dOffset kernel_h stride_h ph iy).toNat
            (dOffset kernel_w stride_w pw ix).toNat = a
      · exfalso
        refine hc ?_
        simp only [List.any_eq_true, beq_iff_eq]
        refine ⟨flatOffset2d width (dOffset kernel_h stride_h ph iy).toNat
          (dOffset kernel_w stride_w pw ix).toNat, ?_, hcond.2⟩
        refine mem_specCells2d.2 ⟨(dOffset kernel_h stride_h ph iy).toNat, ?_,
          (dOffset kernel_w stride_w pw ix).toNat, ?_, rfl⟩
        · refine mem_validOffsets1d.2 ⟨iy, Finset.mem_range.1 hiymem, ?_, ?_⟩ <;> omega
        · refine mem_validOffsets1d.2 ⟨ix, Finset.mem_range.1 hixmem, ?_, ?_⟩ <;> omega
      · rw [if_neg hcond]

theorem softPool2dBackwardRun_eval (fexp : ℚ → ℚ) (lower upper : ℚ) (nthreads : ℕ)
    (diff_output data_input : ℕ → ℚ)
    (channels height width kernel_h kernel_w stride_h stride_w : ℕ)
    (diff_input0 : ℕ → ℚ) (a : ℕ) :
    softPool2dBackwardRun fexp lower upper nthreads diff_output data_input
        channels height width kernel_h kernel_w stride_h stride_w diff_input0 a
      = diff_input0 a + ((List.range nthreads).map (fun index =>
          ((List.range kernel_h).map (fun iy =>
            if dOffset kernel_h stride_h (ph2d height width stride_h stride_w index) iy
                  ≥ (height : ℤ) ∨
                dOffset kernel_h stride_h (ph2d height width stride_h stride_w index) iy
                  < 0 then 0
            else ((List.range kernel_w).map (fun ix =>
              if ¬ (dOffset kernel_w stride_w (pw2d width stride_w index) ix
                      ≥ (width : ℤ) ∨
                    dOffset kernel_w stride_w (pw2d width stride_w index) ix < 0) ∧
                  base2d channels height width stride_h stride_w index +
                    flatOffset2d width
                      (dOffset kernel_h stride_h
                        (ph2d height width stride_h stride_w index) iy).toNat
                      (dOffset kernel_w stride_w (pw2d width stride_w index) ix).toNat
                    = a
              then clamp (diff_output index * clamp (clamp (fexp (data_input
                      (base2d channels height width stride_h stride_w index +
                        flatOffset2d width
                          (dOffset kernel_h stride_h
                            (ph2d height width stride_h stride_w index) iy).toNat
                          (dOffset kernel_w stride_w
                            (pw2d width stride_w index) ix).toNat))) 0 upper /
                    maskSumClamped2d fexp lower upper
                      (fun j => data_input
                        (base2d channels height width stride_h stride_w index + j))
                      height width kernel_h kernel_w stride_h stride_w
                      (ph2d height width stride_h stride_w index)
                      (pw2d width stride_w index)) 0 upper) 0 upper
              else 0)).sum)).sum)).sum := by
  rw [softPool2dBackwardRun]
  exact foldl_addStep_eval _ _
    (fun index m b => double_scatter_eval
      (fun iy => dOffset kernel_h stride_h (ph2d height width stride_h stride_w index) iy
          ≥ (height : ℤ) ∨
        dOffset kernel_h stride_h (ph2d height width stride_h stride_w index) iy < 0)
      (fun ix => dOffset kernel_w stride_w (pw2d width stride_w index) ix ≥ (width : ℤ) ∨
        dOffset kernel_w stride_w (pw2d width stride_w index) ix < 0)
      (fun iy ix => base2d channels height width stride_h stride_w index +
        flatOffset2d width
          (dOffset kernel_h stride_h (ph2d height width stride_h stride_w index) iy).toNat
          (dOffset kernel_w stride_w (pw2d width stride_w index) ix).toNat)
      (fun iy ix => clamp (diff_output index * clamp (clamp (fexp (data_input
          (base2d channels height width stride_h stride_w index +
            flatOffset2d width
              (dOffset kernel_h stride_h
                (ph2d height width stride_h stride_w index) iy).toNat
              (dOffset kernel_w stride_w (pw2d width stride_w index) ix).toNat))) 0 upper /
        maskSumClamped2d fexp lower upper
          (fun j => data_input (base2d channels height width stride_h stride_w index + j))
          height width kernel_h kernel_w stride_h stride_w
          (ph2d height width stride_h stride_w index) (pw2d width stride_w index))
        0 upper) 0 upper)
      kernel_h kernel_w m b)
    (List.range nthreads) diff_input0 a

theorem backwardContrib2d_eq_covers (fexp : ℚ → ℚ) (lower upper : ℚ)
    (diff_output data_input : ℕ → ℚ)
    (channels height width kernel_h kernel_w stride_h stride_w index a : ℕ)
    (hexp : ∀ x, 0 ≤ fexp x) (hl : 0 < lower) (hlu : lower ≤ upper)
    (h1u : (1:ℚ) ≤ upper) (hg : |diff_output index| ≤ upper) :
    ((List.range kernel_h).map (fun iy =>
        if dOffset kernel_h stride_h (ph2d height width stride_h stride_w index) iy
              ≥ (height : ℤ) ∨
            dOffset kernel_h stride_h (ph2d height width stride_h stride_w index) iy
              < 0 then 0
        else ((List.range kernel_w).map (fun ix =>
          if ¬ (dOffset kernel_w stride_w (pw2d width stride_w index) ix ≥ (width : ℤ) ∨
                dOffset kernel_w stride_w (pw2d width stride_w index) ix < 0) ∧
              base2d channels height width stride_h stride_w index +
                flatOffset2d width
                  (dOffset kernel_h stride_h
                    (ph2d height width stride_h stride_w index) iy).toNat
                  (dOffset kernel_w stride_w (pw2d width stride_w index) ix).toNat = a
          then clamp (diff_output index * clamp (clamp (fexp (data_input
                  (base2d channels height width stride_h stride_w index +
                    flatOffset2d width
                      (dOffset kernel_h stride_h
                        (ph2d height width stride_h stride_w index) iy).toNat
                      (dOffset kernel_w stride_w
                        (pw2d width stride_w index) ix).toNat))) 0 upper /
                maskSumClamped2d fexp lower upper
                  (fun j => data_input
                    (base2d channels height width stride_h stride_w index + j))
                  height width kernel_h kernel_w stride_h stride_w
                  (ph2d height width stride_h stride_w index)
                  (pw2d width stride_w index)) 0 upper) 0 upper
          else 0)).sum)).sum
      = if covers2d channels height width kernel_h kernel_w stride_h stride_w index a
        then diff_output index * weight2d fexp lower upper
            (fun j => data_input (base2d channels height width stride_h stride_w index + j))
            height width kernel_h kernel_w stride_h stride_w
            (ph2d height width stride_h stride_w index) (pw2d width stride_w index)
            (a - base2d channels height width stride_h stride_w index)
        else 0 :=
  backwardContrib2d_eq fexp lower upper (diff_output index) data_input
    height width kernel_h kernel_w stride_h stride_w
    (ph2d height width stride_h stride_w index) (pw2d width stride_w index)
    (base2d channels height width stride_h stride_w index) a hexp hl hlu h1u hg

/-! A window whose valid cells all hold the same value. -/

theorem abs_nat_mul_div_le {i k : ℕ} {v upper : ℚ} (hik : i ≤ k) (hk : 0 < k)
    (hvu : |v| ≤ upper) : |(i:ℚ) * (v / k)| ≤ upper := by
  have hk' : (0:ℚ) < k := by exact_mod_cast hk
  have hik' : (i:ℚ) ≤ k := by exact_mod_cast hik
  have h1 : |(i:ℚ) * (v / k)| = (i:ℚ) / k * |v| := by
    rw [abs_mul, abs_div, Nat.abs_cast, Nat.abs_cast]; ring
  rw [h1]
  have h2 : (i:ℚ) / k ≤ 1 := (div_le_one hk').2 hik'
  calc (i:ℚ)/k * |v| ≤ 1 * |v| := mul_le_mul_of_nonneg_right h2 (abs_nonneg v)
    _ = |v| := one_mul _
    _ ≤ upper := hvu

theorem foldl_clamp_const {α : Type} (c upper : ℚ) (k : ℕ)
    (hbound : ∀ i : ℕ, i ≤ k → |(i:ℚ) * c| ≤ upper) :
    ∀ (l : List α) (i : ℕ), i + l.length ≤ k →
      l.foldl (fun acc _ => clamp (acc + c) 0 upper) ((i:ℚ) * c)
        = ((i + l.length : ℕ) : ℚ) * c := by
  intro l
  induction l with
  | nil => intro i hi; simp
  | cons x l ih =>
    intro i hi
    simp only [List.foldl_cons, List.length_cons]
    have h1 : (i:ℚ) * c + c = ((i + 1 : ℕ) : ℚ) * c := by push_cast; ring
    rw [h1, clamp_id_of_abs_le (hbound (i+1) (by simp at hi; omega))]
    rw [ih (i+1) (by simp at hi; omega)]
    congr 2
    omega

theorem maskSum1d_allEqual (fexp : ℚ → ℚ) (upper : ℚ) (inp : ℕ → ℚ)
    (dim kernel_d stride_d pd : ℕ) (v : ℚ)
    (hv : ∀ j ∈ validOffsets1d dim kernel_d stride_d pd, inp j = v)
    (hef : 0 < fexp v) (hefu : fexp v ≤ upper) (hu0 : (0:ℚ) ≤ upper) :
    maskSum1d fexp upper inp dim kernel_d stride_d pd
      = ((validOffsets1d dim kernel_d stride_d pd).length : ℚ) * fexp v := by
  rw [maskSum1d_eq_sum]
  rw [List.map_congr_left (fun j hj => by
    rw [hv j hj, clamp_nonneg_eq_min hef.le hu0, min_eq_left hefu] :
      ∀ j ∈ validOffsets1d dim kernel_d stride_d pd,
        clamp (fexp (inp j)) 0 upper = fexp v)]
  simp [List.map_const']

theorem maskSumClamped1d_allEqual (fexp : ℚ → ℚ) (lower upper : ℚ) (inp : ℕ → ℚ)
    (dim kernel_d stride_d pd : ℕ) (v : ℚ)
    (hv : ∀ j ∈ validOffsets1d dim kernel_d stride_d pd, inp j = v)
    (hk : 0 < (validOffsets1d dim kernel_d stride_d pd).length)
    (hef : 0 < fexp v) (hefu : fexp v ≤ upper)
    (hlk : lower ≤ ((validOffsets1d dim kernel_d stride_d pd).length : ℚ) * fexp v)
    (hku : ((validOffsets1d dim kernel_d stride_d pd).length : ℚ) * fexp v ≤ upper)
    (hu0 : (0:ℚ) ≤ upper) :
    maskSumClamped1d fexp lower upper inp dim kernel_d stride_d pd
      = ((validOffsets1d dim kernel_d stride_d pd).length : ℚ) * fexp v := by
  have hpos : (0:ℚ) < ((validOffsets1d dim kernel_d stride_d pd).length : ℚ) * fexp v :=
    mul_pos (by exact_mod_cast hk) hef
  rw [maskSumClamped1d, maskSum1d_allEqual fexp upper inp dim kernel_d stride_d pd v hv hef hefu hu0,
    clamp_of_pos _ _ hpos, min_eq_left hku, max_eq_right hlk]

theorem weight1d_allEqual (fexp : ℚ → ℚ) (lower upper : ℚ) (inp : ℕ → ℚ)
    (dim kernel_d stride_d pd j : ℕ) (v : ℚ)
    (hv : ∀ i ∈ validOffsets1d dim kernel_d stride_d pd, inp i = v)
    (hj : j ∈ validOffsets1d dim kernel_d stride_d pd)
    (hk : 0 < (validOffsets1d dim kernel_d stride_d pd).length)
    (hef : 0 < fexp v) (hefu : fexp v ≤ upper)
    (hlk : lower ≤ ((validOffsets1d dim kernel_d stride_d pd).length : ℚ) * fexp v)
    (hku : ((validOffsets1d dim kernel_d stride_d pd).length : ℚ) * fexp v ≤ upper)
    (h1u : (1:ℚ) ≤ upper) :
    weight1d fexp lower upper inp dim kernel_d stride_d pd j
      = 1 / ((validOffsets1d dim kernel_d stride_d pd).length : ℚ) := by
  have hu0 : (0:ℚ) ≤ upper := le_trans zero_le_one h1u
  have hkq : (0:ℚ) < ((validOffsets1d dim kernel_d stride_d pd).length : ℚ) := by
    exact_mod_cast hk
  rw [weight1d,
    maskSumClamped1d_allEqual fexp lower upper inp dim kernel_d stride_d pd v hv hk hef hefu
      hlk hku hu0,
    hv j hj, clamp_nonneg_eq_min hef.le hu0, min_eq_left hefu]
  have hratio : fexp v / (((validOffsets1d dim kernel_d stride_d pd).length : ℚ) * fexp v)
      = 1 / ((validOffsets1d dim kernel_d stride_d pd).length : ℚ) := by
    rw [div_mul_eq_div_div_swap, div_self (ne_of_gt hef)]
  rw [hratio, clamp_nonneg_eq_min (by positivity) hu0,
    min_eq_left (le_trans ((div_le_one hkq).2 (by exact_mod_cast hk)) h1u)]

theorem softPool1dForwardCell_allEqual (fexp : ℚ → ℚ) (lower upper : ℚ) (inp : ℕ → ℚ)
    (dim kernel_d stride_d pd : ℕ) (v : ℚ)
    (hv : ∀ i ∈ validOffsets1d dim kernel_d stride_d pd, inp i = v)
    (hk : 0 < (validOffsets1d dim kernel_d stride_d pd).length)
    (hef : 0 < fexp v) (hefu : fexp v ≤ upper)
    (hlk : lower ≤ ((validOffsets1d dim kernel_d stride_d pd).length : ℚ) * fexp v)
    (hku : ((validOffsets1d dim kernel_d stride_d pd).length : ℚ) * fexp v ≤ upper)
    (h1u : (1:ℚ) ≤ upper) (hvu : |v| ≤ upper) :
    softPool1dForwardCell fexp lower upper inp dim kernel_d stride_d pd = v := by
  have hu0 : (0:ℚ) ≤ upper := le_trans zero_le_one h1u
  have hkq : (0:ℚ) < ((validOffsets1d dim kernel_d stride_d pd).length : ℚ) := by
    exact_mod_cast hk
  have hws : clamp ((List.map (fun j => clamp (fexp (inp j)) 0 upper)
      (validOffsets1d dim kernel_d stride_d pd)).sum) lower upper
      = ((validOffsets1d dim kernel_d stride_d pd).length : ℚ) * fexp v := by
    rw [← maskSum1d_eq_sum]
    exact maskSumClamped1d_allEqual fexp lower upper inp dim kernel_d stride_d pd v hv hk
      hef hefu hlk hku hu0
  rw [softPool1dForwardCell_eq_spec]
  simp only [specForward1dCell]
  rw [hws]
  have hbody : ∀ j ∈ validOffsets1d dim kernel_d stride_d pd, ∀ acc : ℚ,
      clamp (acc + clamp (inp j * clamp (clamp (fexp (inp j)) 0 upper /
          (((validOffsets1d dim kernel_d stride_d pd).length : ℚ) * fexp v)) 0 upper) 0 upper)
        0 upper
      = clamp (acc + v / ((validOffsets1d dim kernel_d stride_d pd).length : ℚ)) 0 upper := by
    intro j hj acc
    rw [hv j hj, clamp_nonneg_eq_min hef.le hu0, min_eq_left hefu]
    have hratio : fexp v / (((validOffsets1d dim kernel_d stride_d pd).length : ℚ) * fexp v)
        = 1 / ((validOffsets1d dim kernel_d stride_d pd).length : ℚ) := by
      rw [div_mul_eq_div_div_swap, div_self (ne_of_gt hef)]
    have hw0 : (0:ℚ) ≤ 1 / ((validOffsets1d dim kernel_d stride_d pd).length : ℚ) := by
      positivity
    have hk1 : (1:ℚ) ≤ ((validOffsets1d dim kernel_d stride_d pd).length : ℚ) := by
      exact_mod_cast hk
    rw [hratio, clamp_nonneg_eq_min hw0 hu0,
      min_eq_left (le_trans ((div_le_one hkq).2 hk1) h1u)]
    have hmul : v * (1 / ((validOffsets1d dim kernel_d stride_d pd).length : ℚ))
        = v / ((validOffsets1d dim kernel_d stride_d pd).length : ℚ) := by ring
    have habs : |v / ((validOffsets1d dim kernel_d stride_d pd).length : ℚ)| ≤ upper := by
      have h1 := abs_nat_mul_div_le (le_refl (validOffsets1d dim kernel_d stride_d pd).length)
        hk hvu
      calc |v / ((validOffsets1d dim kernel_d stride_d pd).length : ℚ)|
          = |((1:ℕ):ℚ) * (v / ((validOffsets1d dim kernel_d stride_d pd).length : ℚ))| := by
            norm_num
        _ ≤ upper := abs_nat_mul_div_le hk hk hvu
    rw [hmul, clamp_id_of_abs_le habs]
  rw [foldl_congr_mem _ _ _ 0 hbody]
  have hfold := foldl_clamp_const
    (v / ((validOffsets1d dim kernel_d stride_d pd).length : ℚ)) upper
    (validOffsets1d dim kernel_d stride_d pd).length
    (fun i hi => abs_nat_mul_div_le hi hk hvu)
    (validOffsets1d dim kernel_d stride_d pd) 0 (by omega)
  simp only [Nat.cast_zero, zero_mul, Nat.zero_add, zero_add] at hfold
  rw [hfold, mul_div_cancel₀ v (ne_of_gt hkq)]

/-! Evaluations of the spec's end-to-end scenario (1-D input `[0, 1, 0, 1]`,
kernel 2, stride 2), with the exponential instantiated at a nine-digit
rational approximation of `e`. -/

set_option maxHeartbeats 1600000 in
theorem scenario_run_at_zero :
    softPool1dForwardRun expApprox (1/100000) 100000 2 scenarioInput 1 4 2 2
      (fun _ => 0) 0 = 0 := by
  rw [softPool1dForwardRun_eval _ _ _ _ _ _ _ _ _ _ _ (by norm_num)]
  simp only [forwardCellAt1d, softPool1dForwardCell, maskSumClamped1d, maskSum1d,
    dOffset, sliceBase1d, expApprox, eApprox, scenarioInput, List.range_succ,
    List.range_zero, List.nil_append, List.cons_append, List.foldl_cons, List.foldl_nil]
  norm_num [clamp, sgn]

set_option maxHeartbeats 1600000 in
theorem scenario_run_at_one :
    |softPool1dForwardRun expApprox (1/100000) 100000 2 scenarioInput 1 4 2 2
      (fun _ => 0) 1 - 731/1000| < 1/1000 := by
  rw [softPool1dForwardRun_eval _ _ _ _ _ _ _ _ _ _ _ (by norm_num)]
  have hcell : forwardCellAt1d expApprox (1/100000) 100000 scenarioInput 1 4 2 2 1
      = softPool1dForwardCell expApprox (1/100000) 100000
          (fun j => scenarioInput (0 + j)) 4 2 2 1 := rfl
  rw [hcell]
  have hms : maskSumClamped1d expApprox (1/100000) 100000
      (fun j => scenarioInput (0 + j)) 4 2 2 1 = 3718281828/1000000000 := by
    simp only [maskSumClamped1d, maskSum1d, dOffset, List.range_succ, List.range_zero,
      List.nil_append, List.cons_append, List.foldl_cons, List.foldl_nil,
      scenarioInput, expApprox, eApprox]
    simp
    norm_num [clamp, sgn, abs_eq_max_neg, max_def, min_def]
  simp only [softPool1dForwardCell]
  rw [hms]
  simp only [dOffset, scenarioInput, expApprox, eApprox,
    List.range_succ, List.range_zero, List.nil_append, List.cons_append,
    List.foldl_cons, List.foldl_nil]
  simp
  norm_num [clamp, sgn, abs_eq_max_neg, max_def, min_def]

/-! The ten claims. -/

/-- C1: for every kernel and stride geometry and every input, each cell of the
forward kernel's output (1-D and 2-D variants) equals the softmax-weighted sum
over that cell's valid window — `Σ_j w_j * x_j` with
`w_j = safe_exp(x_j) / Σ_i safe_exp(x_i)` — with `safe_exp` and the
intermediate clamps applied exactly as in the two-pass algorithm of spec
section 4.3 (embodied by `specForward1dCell` / `specForward2dCell`, which are
written from the spec's valid-cell-list description). -/
theorem forward_output_is_two_pass_softmax :
    (∀ (fexp : ℚ → ℚ) (lower upper : ℚ) (nthreads : ℕ) (inp : ℕ → ℚ)
        (channels dim kernel_d stride_d : ℕ) (output0 : ℕ → ℚ) (index : ℕ),
        index < nthreads →
        softPool1dForwardRun fexp lower upper nthreads inp channels dim kernel_d stride_d
            output0 index
          = specForward1dCell fexp lower upper
              (fun j => inp (base1d channels dim stride_d index + j))
              dim kernel_d stride_d (pd1d dim stride_d index))
    ∧ (∀ (fexp : ℚ → ℚ) (lower upper : ℚ) (nthreads : ℕ) (inp : ℕ → ℚ)
        (channels height width kernel_h kernel_w stride_h stride_w : ℕ)
        (output0 : ℕ → ℚ) (index : ℕ),
        index < nthreads →
        softPool2dForwardRun fexp lower upper nthreads inp channels height width
            kernel_h kernel_w stride_h stride_w output0 index
          = specForward2dCell fexp lower upper
              (fun j => inp (base2d channels height width stride_h stride_w index + j))
              height width kernel_h kernel_w stride_h stride_w
              (ph2d height width stride_h stride_w index) (pw2d width stride_w index)) := by
  constructor
  · intro fexp lower upper nthreads inp channels dim kernel_d stride_d output0 index h
    rw [softPool1dForwardRun_eval fexp lower upper nthreads inp channels dim kernel_d
      stride_d output0 index h]
    exact softPool1dForwardCell_eq_spec fexp lower upper
      (fun j => inp (base1d channels dim stride_d index + j))
      dim kernel_d stride_d (pd1d dim stride_d index)
  · intro fexp lower upper nthreads inp channels height width kernel_h kernel_w
      stride_h stride_w output0 index h
    rw [softPool2dForwardRun_eval fexp lower upper nthreads inp channels height width
      kernel_h kernel_w stride_h stride_w output0 index h]
    exact softPool2dForwardCell_eq_spec fexp lower upper
      (fun j => inp (base2d channels height width stride_h stride_w index + j))
      height width kernel_h kernel_w stride_h stride_w
      (ph2d height width stride_h stride_w index) (pw2d width stride_w index)

/-- Witness for C1 at a concrete instance. -/
theorem forward_output_is_two_pass_softmax_witness :
    0 < 1 ∧
      softPool1dForwardRun (fun _ => 1) 0 1 1 (fun _ => 0) 1 1 1 1 (fun _ => 0) 0
        = specForward1dCell (fun _ => 1) 0 1
            (fun j => (0:ℚ)) 1 1 1 (pd1d 1 1 0) ∧
      softPool2dForwardRun (fun _ => 1) 0 1 1 (fun _ => 0) 1 1 1 1 1 1 1 (fun _ => 0) 0
        = specForward2dCell (fun _ => 1) 0 1
            (fun j => (0:ℚ)) 1 1 1 1 1 1 (ph2d 1 1 1 1 0) (pw2d 1 1 0) :=
  ⟨Nat.zero_lt_one,
    forward_output_is_two_pass_softmax.1 (fun _ => 1) 0 1 1 (fun _ => 0) 1 1 1 1
      (fun _ => 0) 0 Nat.zero_lt_one,
    forward_output_is_two_pass_softmax.2 (fun _ => 1) 0 1 1 (fun _ => 0) 1 1 1 1 1 1 1
      (fun _ => 0) 0 Nat.zero_lt_one⟩

/-- C2: with the input-gradient buffer zero-filled beforehand, the final value
the backward kernel (1-D and 2-D variants) leaves at any input cell equals the
sum, over all output cells whose window covers that cell, of the
output-gradient at that output cell times that cell's normalized (clamped)
weight in that window.  Hypotheses: the exponential is nonnegative, the
numeric limits satisfy `0 < lower ≤ upper` and `1 ≤ upper`, and every
output-gradient value is representable (`|g| ≤ upper`). -/
theorem backward_grad_is_sum_of_weighted_output_grads :
    (∀ (fexp : ℚ → ℚ) (lower upper : ℚ) (nthreads : ℕ)
        (diff_output data_input : ℕ → ℚ) (channels dim kernel_d stride_d : ℕ),
        (∀ x, 0 ≤ fexp x) → 0 < lower → lower ≤ upper → (1:ℚ) ≤ upper →
        (∀ i, |diff_output i| ≤ upper) → ∀ a : ℕ,
        softPool1dBackwardRun fexp lower upper nthreads diff_output data_input
            channels dim kernel_d stride_d (fun _ => 0) a
          = ∑ index ∈ Finset.range nthreads,
              (if covers1d channels dim kernel_d stride_d index a
               then diff_output index * weight1d fexp lower upper
                   (fun j => data_input (base1d channels dim stride_d index + j))
                   dim kernel_d stride_d (pd1d dim stride_d index)
                   (a - base1d channels dim stride_d index)
               else 0))
    ∧ (∀ (fexp : ℚ → ℚ) (lower upper : ℚ) (nthreads : ℕ)
        (diff_output data_input : ℕ → ℚ)
        (channels height width kernel_h kernel_w stride_h stride_w : ℕ),
        (∀ x, 0 ≤ fexp x) → 0 < lower → lower ≤ upper → (1:ℚ) ≤ upper →
        (∀ i, |diff_output i| ≤ upper) → ∀ a : ℕ,
        softPool2dBackwardRun fexp lower upper nthreads diff_output data_input
            channels height width kernel_h kernel_w stride_h stride_w (fun _ => 0) a
          = ∑ index ∈ Finset.range nthreads,
              (if covers2d channels height width kernel_h kernel_w stride_h stride_w
                    index a
               then diff_output index * weight2d fexp lower upper
                   (fun j => data_input
                     (base2d channels height width stride_h stride_w index + j))
                   height width kernel_h kernel_w stride_h stride_w
                   (ph2d height width stride_h stride_w index) (pw2d width stride_w index)
                   (a - base2d channels height width stride_h stride_w index)
               else 0)) := by
  constructor
  · intro fexp lower upper nthreads diff_output data_input channels dim kernel_d stride_d
      hexp hl hlu h1u hdout a
    rw [softPool1dBackwardRun_eval]
    rw [List.map_congr_left (fun index _ => backwardContrib1d_eq fexp lower upper
      diff_output data_input channels dim kernel_d stride_d index a hexp hl hlu h1u
      (hdout index))]
    rw [sum_map_range]
    exact zero_add _
  · intro fexp lower upper nthreads diff_output data_input channels height width
      kernel_h kernel_w stride_h stride_w hexp hl hlu h1u hdout a
    rw [softPool2dBackwardRun_eval]
    rw [List.map_congr_left (fun index _ => backwardContrib2d_eq_covers fexp lower upper
      diff_output data_input channels height width kernel_h kernel_w stride_h stride_w
      index a hexp hl hlu h1u (hdout index))]
    rw [sum_map_range]
    exact zero_add _

/-- Witness for C2 at a concrete instance. -/
theorem backward_grad_is_sum_of_weighted_output_grads_witness :
    (0:ℚ) < 1 ∧
      softPool1dBackwardRun (fun _ => 1) 1 1 1 (fun _ => 1) (fun _ => 0) 1 1 1 1
          (fun _ => 0) 0
        = ∑ index ∈ Finset.range 1,
            (if covers1d 1 1 1 1 index 0
             then (1:ℚ) * weight1d (fun _ => 1) 1 1
                 (fun j => (0:ℚ)) 1 1 1 (pd1d 1 1 index) (0 - base1d 1 1 1 index)
             else 0) ∧
      softPool2dBackwardRun (fun _ => 1) 1 1 1 (fun _ => 1) (fun _ => 0) 1 1 1 1 1 1 1
          (fun _ => 0) 0
        = ∑ index ∈ Finset.range 1,
            (if covers2d 1 1 1 1 1 1 1 index 0
             then (1:ℚ) * weight2d (fun _ => 1) 1 1
                 (fun j => (0:ℚ)) 1 1 1 1 1 1 (ph2d 1 1 1 1 index) (pw2d 1 1 index)
                 (0 - base2d 1 1 1 1 1 index)
             else 0) :=
  ⟨by decide,
    backward_grad_is_sum_of_weighted_output_grads.1 (fun _ => 1) 1 1 1 (fun _ => 1)
      (fun _ => 0) 1 1 1 1 (fun _ => zero_le_one) (by decide) (le_refl 1) (le_refl 1)
      (fun i => by simp) 0,
    backward_grad_is_sum_of_weighted_output_grads.2 (fun _ => 1) 1 1 1 (fun _ => 1)
      (fun _ => 0) 1 1 1 1 1 1 1 (fun _ => zero_le_one) (by decide) (le_refl 1)
      (le_refl 1) (fun i => by simp) 0⟩

/-- C3: the claim says the 3-D kernels read window coordinate `(d, y, x)` at the
row-major offset `((d*height) + y)*width + x`; the source instead computes
`d*height + y*width + x` (`flatOffset3d`, used verbatim by the embedded 3-D
kernels).  At `(d, y, x) = (1, 0, 0)` with `height = 2`, `width = 3` the code
offset is 2 while the row-major offset is 6, and the code's formula even
aliases the distinct coordinates `(1, 0, 2)` and `(0, 1, 1)` — so the 3-D
kernels do not read the cells the window geometry designates: the code is
wrong and the claim (which matches the spec's layout) is right. -/
theorem offset3d_code_vs_row_major :
    flatOffset3d 2 3 1 0 0 = 2 ∧ rowMajorOffset3d 2 3 1 0 0 = 6 ∧
      flatOffset3d 2 3 1 0 0 ≠ rowMajorOffset3d 2 3 1 0 0 ∧
      flatOffset3d 2 3 1 0 2 = flatOffset3d 2 3 0 1 1 := by
  decide

/-- C4: the claim says every kernel's pooled extent per axis is
`input_extent / stride`; the 3-D backward kernel instead computes
`pooled_height = width / stride_h` (source line 483, embodied in
`softPool3dBackwardPooled`).  With `height = 4`, `width = 6`, `stride_h = 2`
the kernel uses pooled height 3 while `height / stride_h = pooledExtent 4 2 = 2`;
the 3-D forward kernel (and the 3-D backward launcher's own output-size
computation) use `height / stride_h`, so the code is wrong and the claim is
right. -/
theorem pooled_height_3d_backward_uses_width :
    (softPool3dBackwardPooled 8 4 6 2 2 2).2.1 = 3 ∧
      pooledExtent 4 2 = 2 ∧
      (softPool3dBackwardPooled 8 4 6 2 2 2).2.1 ≠ pooledExtent 4 2 ∧
      (softPool3dForwardPooled 8 4 6 2 2 2).2.1 = pooledExtent 4 2 := by
  decide

/-- C5 counterexample: the forward output is not bounded below by 0.  On the
single-cell input `[-1]` with kernel 1, stride 1 (and any positive exponential
value, here `exp ≡ 1`), the window weight is 1 and the output is `-1 < 0`:
the magnitude clamp `clamp(x, 0, upper) = sgn(x)*min(|x|, upper)` preserves
negative values rather than truncating them to 0. -/
theorem forward_output_negative_counterexample :
    softPool1dForwardCell (fun _ => 1) 1 1000 (fun _ => -1) 1 1 1 0 = -1 ∧
      ¬ (0 ≤ softPool1dForwardCell (fun _ => 1) 1 1000 (fun _ => -1) 1 1 1 0) := by
  have h : softPool1dForwardCell (fun _ => 1) 1 1000 (fun _ => -1) 1 1 1 0 = -1 := by
    norm_num [softPool1dForwardCell, maskSumClamped1d, maskSum1d,
      dOffset, clamp, sgn, List.range_succ]
  refine ⟨h, ?_⟩
  rw [h]
  norm_num

/-- C5 as amended: for every input, the forward output at every cell lies in
the symmetric range `-upper ≤ output ≤ upper` (magnitude bounded by the
max-representable value `upper`); the spec's claimed lower bound 0 does not
hold for negative inputs. -/
theorem forward_output_bounded_in_magnitude (fexp : ℚ → ℚ) (lower upper : ℚ)
    (inp : ℕ → ℚ) (dim kernel_d stride_d pd : ℕ) (hu : 0 ≤ upper) :
    -upper ≤ softPool1dForwardCell fexp lower upper inp dim kernel_d stride_d pd ∧
      softPool1dForwardCell fexp lower upper inp dim kernel_d stride_d pd ≤ upper := by
  have h := abs_softPool1dForwardCell_le fexp lower upper inp dim kernel_d stride_d pd hu
  exact ⟨neg_le_of_abs_le h, le_of_abs_le h⟩

/-- Witness for the amended C5 at a concrete instance. -/
theorem forward_output_bounded_in_magnitude_witness :
    (0:ℚ) ≤ 1000 ∧
      (-(1000:ℚ) ≤ softPool1dForwardCell (fun _ => 1) 1 1000 (fun _ => -1) 1 1 1 0 ∧
        softPool1dForwardCell (fun _ => 1) 1 1000 (fun _ => -1) 1 1 1 0 ≤ 1000) :=
  ⟨by decide,
    forward_output_bounded_in_magnitude (fun _ => 1) 1 1000 (fun _ => -1) 1 1 1 0
      (by decide)⟩

/-- C6: the claim (and the source comment "FLT_MIN <= sum") says the clamp of
`weight_sum` into `[lower, upper]` leaves it strictly positive even when every
`safe_exp` collapses to 0; in fact `clamp(0, lower, upper) =
max(lower, min(0, upper)) * sgn(0) = lower * 0 = 0`, so for a window whose
clamped exponentials are all zero (modelled by the collapsed exponential
`fexp ≡ 0`) the clamped `weight_sum` is exactly 0, not `≥ lower`, and the
second pass divides by zero: the code contradicts its own comment and the
claim

 describes the intended behaviour. -/
theorem weight_sum_clamp_zero_failure :
    maskSumClamped1d (fun _ => 0) (1/1000) 1000 (fun _ => 0) 4 2 2 0 = 0 ∧
      ¬ (0 < maskSumClamped1d (fun _ => 0) (1/1000) 1000 (fun _ => 0) 4 2 2 0) := by
  have h : maskSumClamped1d (fun _ => 0) (1/1000) 1000 (fun _ => 0) 4 2 2 0 = 0 := by
    norm_num [maskSumClamped1d, maskSum1d, dOffset, clamp, sgn, List.range_succ]
  refine ⟨h, ?_⟩
  rw [h]
  norm_num

/-- C7 counterexample: on the spec's end-to-end scenario (input `[0, 1, 0, 1]`,
kernel 2, stride 2, `exp` instantiated at a nine-digit rational approximation
of `e`), the first output cell is 0, not approximately 0.731: the window of
output 0 is the candidate offsets `{-1, 0}` (because of the `- kernel/2`
centering), of which only offset 0 — value 0.0 — is in bounds. -/
theorem scenario_first_output_far_from_0731 :
    ¬ (|softPool1dForwardRun expApprox (1/100000) 100000 2 scenarioInput 1 4 2 2
        (fun _ => 0) 0 - 731/1000| ≤ 1/100) := by
  rw [scenario_run_at_zero]
  norm_num [abs_eq_max_neg, max_def]

/-- C7 as amended: on the scenario the output is approximately `[0, 0.731]`:
the two windows are `{0.0}` (offsets `-1, 0`, the former skipped) and
`{1.0, 0.0}` (offsets `1, 2`), so output 0 is exactly 0 and output 1 is
`(1*e + 0*1)/(e + 1) ≈ 0.731` within `10^-3`. -/
theorem scenario_outputs_zero_and_0731 :
    softPool1dForwardRun expApprox (1/100000) 100000 2 scenarioInput 1 4 2 2
        (fun _ => 0) 0 = 0 ∧
      |softPool1dForwardRun expApprox (1/100000) 100000 2 scenarioInput 1 4 2 2
        (fun _ => 0) 1 - 731/1000| < 1/1000 :=
  ⟨scenario_run_at_zero, scenario_run_at_one⟩

/-- C8: if every valid cell of a window holds the same value `v` (with the
window nonempty and all quantities representable: `0 < exp(v) ≤ upper`,
`lower ≤ count*exp(v) ≤ upper`, `1 ≤ upper`, `|v| ≤ upper`), then the
normalized clamped weight of every covered cell equals `1 / count` where
`count` is the number of valid cells, and the forward output equals `v`
exactly. -/
theorem uniform_window_weights_and_identity_output
    (fexp : ℚ → ℚ) (lower upper : ℚ) (inp : ℕ → ℚ)
    (dim kernel_d stride_d pd : ℕ) (v : ℚ)
    (hv : ∀ i ∈ validOffsets1d dim kernel_d stride_d pd, inp i = v)
    (hk : 0 < (validOffsets1d dim kernel_d stride_d pd).length)
    (hef : 0 < fexp v) (hefu : fexp v ≤ upper)
    (hlk : lower ≤ ((validOffsets1d dim kernel_d stride_d pd).length : ℚ) * fexp v)
    (hku : ((validOffsets1d dim kernel_d stride_d pd).length : ℚ) * fexp v ≤ upper)
    (h1u : (1:ℚ) ≤ upper) (hvu : |v| ≤ upper) :
    (∀ j ∈ validOffsets1d dim kernel_d stride_d pd,
        weight1d fexp lower upper inp dim kernel_d stride_d pd j
          = 1 / ((validOffsets1d dim kernel_d stride_d pd).length : ℚ)) ∧
      softPool1dForwardCell fexp lower upper inp dim kernel_d stride_d pd = v :=
  ⟨fun j hj => weight1d_allEqual fexp lower upper inp dim kernel_d stride_d pd j v
      hv hj hk hef hefu hlk hku h1u,
    softPool1dForwardCell_allEqual fexp lower upper inp dim kernel_d stride_d pd v
      hv hk hef hefu hlk hku h1u hvu⟩

/-- Witness for C8 at a concrete instance (input constantly 1, dim 4,
kernel 2, stride 2, window of output cell 1 = offsets `{1, 2}`). -/
theorem uniform_window_weights_and_identity_output_witness :
    (0:ℚ) < 1 ∧
      ((∀ j ∈ validOffsets1d 4 2 2 1,
          weight1d (fun _ => 1) 1 10 (fun _ => 1) 4 2 2 1 j
            = 1 / ((validOffsets1d 4 2 2 1).length : ℚ)) ∧
        softPool1dForwardCell (fun _ => 1) 1 10 (fun _ => 1) 4 2 2 1 = 1) :=
  ⟨by decide,
    uniform_window_weights_and_identity_output (fun _ => 1) 1 10 (fun _ => 1) 4 2 2 1 1
      (fun i _ => rfl) (by decide) (by decide) (by decide)
      (by simp [validOffsets1d, dOffset, List.range_succ])
      (by simp only [validOffsets1d, dOffset, List.range_succ]; simp; norm_num)
      (by decide) (by simp)⟩

/-- C9: for a window partially outside the input bounds, every out-of-range
candidate coordinate is excluded (not clamped to the border), so the forward
output depends only on the in-bounds cells of the slice: two input buffers
that agree on all in-bounds addresses produce identical outputs (1-D and 2-D
variants). -/
theorem border_window_independent_of_out_of_bounds :
    (∀ (fexp : ℚ → ℚ) (lower upper : ℚ) (inp inp' : ℕ → ℚ)
        (dim kernel_d stride_d pd : ℕ),
        (∀ j, j < dim → inp j = inp' j) →
        softPool1dForwardCell fexp lower upper inp dim kernel_d stride_d pd
          = softPool1dForwardCell fexp lower upper inp' dim kernel_d stride_d pd)
    ∧ (∀ (fexp : ℚ → ℚ) (lower upper : ℚ) (inp inp' : ℕ → ℚ)
        (height width kernel_h kernel_w stride_h stride_w ph pw : ℕ),
        (∀ j, j < height * width → inp j = inp' j) →
        softPool2dForwardCell fexp lower upper inp height width kernel_h kernel_w
            stride_h stride_w ph pw
          = softPool2dForwardCell fexp lower upper inp' height width kernel_h kernel_w
              stride_h stride_w ph pw) := by
  constructor
  · intro fexp lower upper inp inp' dim kernel_d stride_d pd h
    rw [softPool1dForwardCell_eq_spec, softPool1dForwardCell_eq_spec]
    have hread : ∀ j ∈ validOffsets1d dim kernel_d stride_d pd, inp j = inp' j :=
      fun j hj => h j (validOffsets1d_lt hj)
    simp only [specForward1dCell]
    rw [List.map_congr_left (fun j hj => by rw [hread j hj] :
      ∀ j ∈ validOffsets1d dim kernel_d stride_d pd,
        clamp (fexp (inp j)) 0 upper = clamp (fexp (inp' j)) 0 upper)]
    exact foldl_congr_mem _ _ _ 0 (fun j hj acc => by rw [hread j hj])
  · intro fexp lower upper inp inp' height width kernel_h kernel_w stride_h stride_w
      ph pw h
    rw [softPool2dForwardCell_eq_spec, softPool2dForwardCell_eq_spec]
    have hread : ∀ j ∈ specCells2d height width kernel_h kernel_w stride_h stride_w ph pw,
        inp j = inp' j := fun j hj => h j (specCells2d_lt hj)
    simp only [specForward2dCell]
    rw [List.map_congr_left (fun j hj => by rw [hread j hj] :
      ∀ j ∈ specCells2d height width kernel_h kernel_w stride_h stride_w ph pw,
        clamp (fexp (inp j)) 0 upper = clamp (fexp (inp' j)) 0 upper)]
    exact foldl_congr_mem _ _ _ 0 (fun j hj acc => by rw [hread j hj])

/-- Witness for C9 at a concrete instance. -/
theorem border_window_independent_of_out_of_bounds_witness :
    ((0:ℕ) < 1 → (0:ℚ) = 0) ∧
      softPool1dForwardCell (fun _ => 1) 0 1 (fun _ => 0) 1 1 1 0
        = softPool1dForwardCell (fun _ => 1) 0 1 (fun _ => 0) 1 1 1 0 ∧
      softPool2dForwardCell (fun _ => 1) 0 1 (fun _ => 0) 1 1 1 1 1 1 0 0
        = softPool2dForwardCell (fun _ => 1) 0 1 (fun _ => 0) 1 1 1 1 1 1 0 0 :=
  ⟨fun _ => rfl,
    border_window_independent_of_out_of_bounds.1 (fun _ => 1) 0 1 (fun _ => 0)
      (fun _ => 0) 1 1 1 0 (fun j _ => rfl),
    border_window_independent_of_out_of_bounds.2 (fun _ => 1) 0 1 (fun _ => 0)
      (fun _ => 0) 1 1 1 1 1 1 0 0 (fun j _ => rfl)⟩

/-- C10: every forward kernel (1-D, 2-D, 3-D) stores into each output slot a
value computed from the input alone (the slot is zeroed before accumulation),
so two runs differing only in the initial contents of the output buffer
produce identical values at every computed index. -/
theorem forward_run_independent_of_output_buffer :
    (∀ (fexp : ℚ → ℚ) (lower upper : ℚ) (nthreads : ℕ) (inp : ℕ → ℚ)
        (channels dim kernel_d stride_d : ℕ) (output0 output0' : ℕ → ℚ) (index : ℕ),
        index < nthreads →
        softPool1dForwardRun fexp lower upper nthreads inp channels dim kernel_d stride_d
            output0 index
          = softPool1dForwardRun fexp lower upper nthreads inp channels dim kernel_d
              stride_d output0' index)
    ∧ (∀ (fexp : ℚ → ℚ) (lower upper : ℚ) (nthreads : ℕ) (inp : ℕ → ℚ)
        (channels height width kernel_h kernel_w stride_h stride_w : ℕ)
        (output0 output0' : ℕ → ℚ) (index : ℕ),
        index < nthreads →
        softPool2dForwardRun fexp lower upper nthreads inp channels height width
            kernel_h kernel_w stride_h stride_w output0 index
          = softPool2dForwardRun fexp lower upper nthreads inp channels height width
              kernel_h kernel_w stride_h stride_w output0' index)
    ∧ (∀ (fexp : ℚ → ℚ) (lower upper : ℚ) (nthreads : ℕ) (inp : ℕ → ℚ)
        (channels depth height width kernel_d kernel_h kernel_w
          stride_d stride_h stride_w : ℕ)
        (output0 output0' : ℕ → ℚ) (index : ℕ),
        index < nthreads →
        softPool3dForwardRun fexp lower upper nthreads inp channels depth height width
            kernel_d kernel_h kernel_w stride_d stride_h stride_w output0 index
          = softPool3dForwardRun fexp lower upper nthreads inp channels depth height
              width kernel_d kernel_h kernel_w stride_d stride_h stride_w
              output0' index) := by
  refine ⟨?_, ?_, ?_⟩
  · intro fexp lower upper nthreads inp channels dim kernel_d stride_d o o' index h
    rw [softPool1dForwardRun_eval fexp lower upper nthreads inp channels dim kernel_d
      stride_d o index h,
      softPool1dForwardRun_eval fexp lower upper nthreads inp channels dim kernel_d
      stride_d o' index h]
  · intro fexp lower upper nthreads inp channels height width kernel_h kernel_w
      stride_h stride_w o o' index h
    rw [softPool2dForwardRun_eval fexp lower upper nthreads inp channels height width
      kernel_h kernel_w stride_h stride_w o index h,
      softPool2dForwardRun_eval fexp lower upper nthreads inp channels height width
      kernel_h kernel_w stride_h stride_w o' index h]
  · intro fexp lower upper nthreads inp channels depth height width kernel_d kernel_h
      kernel_w stride_d stride_h stride_w o o' index h
    rw [softPool3dForwardRun_eval fexp lower upper nthreads inp channels depth height
      width kernel_d kernel_h kernel_w stride_d stride_h stride_w o index h,
      softPool3dForwardRun_eval fexp lower upper nthreads inp channels depth height
      width kernel_d kernel_h kernel_w stride_d stride_h stride_w o' index h]

/-- Witness for C10 at a concrete instance (initial buffers constantly 5
and 7). -/
theorem forward_run_independent_of_output_buffer_witness :
    0 < 1 ∧
      softPool1dForwardRun (fun _ => 1) 0 1 1 (fun _ => 0) 1 1 1 1 (fun _ => 5) 0
        = softPool1dForwardRun (fun _ => 1) 0 1 1 (fun _ => 0) 1 1 1 1 (fun _ => 7) 0 ∧
      softPool2dForwardRun (fun _ => 1) 0 1 1 (fun _ => 0) 1 1 1 1 1 1 1 (fun _ => 5) 0
        = softPool2dForwardRun (fun _ => 1) 0 1 1 (fun _ => 0) 1 1 1 1 1 1 1
            (fun _ => 7) 0 ∧
      softPool3dForwardRun (fun _ => 1) 0 1 1 (fun _ => 0) 1 1 1 1 1 1 1 1 1 1
          (fun _ => 5) 0
        = softPool3dForwardRun (fun _ => 1) 0 1 1 (fun _ => 0) 1 1 1 1 1 1 1 1 1 1
            (fun _ => 7) 0 :=
  ⟨Nat.zero_lt_one,
    forward_run_independent_of_output_buffer.1 (fun _ => 1) 0 1 1 (fun _ => 0) 1 1 1 1
      (fun _ => 5) (fun _ => 7) 0 Nat.zero_lt_one,
    forward_run_independent_of_output_buffer.2.1 (fun _ => 1) 0 1 1 (fun _ => 0)
      1 1 1 1 1 1 1 (fun _ => 5) (fun _ => 7) 0 Nat.zero_lt_one,
    forward_run_independent_of_output_buffer.2.2 (fun _ => 1) 0 1 1 (fun _ => 0)
      1 1 1 1 1 1 1 1 1 1 (fun _ => 5) (fun _ => 7) 0 Nat.zero_lt_one⟩

end SoftPool
